import Mathlib

/-!
Verification of the model-routing and swarm-scheduling core of the
Polagent repository, as a shallow embedding in Lean.

Numeric values that are JavaScript numbers are modelled as rationals
(scores, latencies, costs) or naturals (counts, millisecond timestamps);
floating-point rounding is not modelled.  Promises are modelled by
deterministic functions plus an explicit timed simulation of the
stage-by-stage scheduling loop.
-/

/-! ## Data model (packages/models/src/types.ts) -/

inductive ProviderId
  | google | openai | anthropic | deepseek | openai_compatible
deriving DecidableEq

inductive TaskType
  | tradingDecision | marketAnalysis | search | summarization | extraction
deriving DecidableEq

/-- The literal string of a task type, as used in template strings and map keys. -/
def TaskType.toKey : TaskType → String
  | .tradingDecision => "tradingDecision"
  | .marketAnalysis => "marketAnalysis"
  | .search => "search"
  | .summarization => "summarization"
  | .extraction => "extraction"

inductive TaskPriority
  | quality | latency | cost
deriving DecidableEq

/-- The literal string of a priority, as used in template strings. -/
def TaskPriority.toKey : TaskPriority → String
  | .quality => "quality"
  | .latency => "latency"
  | .cost => "cost"

structure TaskBudget where
  maxDollars : Option ℚ := none
  maxLatencyMs : Option ℚ := none
  maxInputTokens : Option Nat := none
deriving DecidableEq

structure TaskRequirements where
  tools : Option Bool := none
  jsonOutput : Option Bool := none
  longContext : Option Bool := none
deriving DecidableEq

structure TaskSpec where
  taskType : TaskType
  priority : TaskPriority
  budget : Option TaskBudget := none
  required : Option TaskRequirements := none
deriving DecidableEq

structure ModelCostProfile where
  inputUsdPer1kTokens : ℚ
  outputUsdPer1kTokens : ℚ
deriving DecidableEq

structure ModelLatencyProfile where
  p50Ms : ℚ
  p95Ms : ℚ
deriving DecidableEq

structure ModelSuitability where
  tradingDecision : ℚ
  marketAnalysis : ℚ
  search : ℚ
  summarization : ℚ
  extraction : ℚ
deriving DecidableEq

structure ModelCapabilities where
  supportsTools : Bool
  supportsJson : Bool
  supportsLongContext : Bool
  maxContextTokens : Nat
deriving DecidableEq

structure ModelProfile where
  id : String
  provider : ProviderId
  modelName : String
  enabledByDefault : Bool
  cost : ModelCostProfile
  latency : ModelLatencyProfile
  capabilities : ModelCapabilities
  suitability : ModelSuitability
deriving DecidableEq

structure ModelSelection where
  primary : ModelProfile
  candidates : List ModelProfile
  reason : String
deriving DecidableEq

inductive ModelOutcome
  | success | error | fallback_success | fallback_error
deriving DecidableEq

/-! ## Rolling metrics store (packages/models/src/metrics.ts, src/unnamed/part_003) -/

structure ModelCallMetrics where
  modelId : String
  taskType : TaskType
  latencyMs : ℚ
  inputTokens : Option Nat := none
  outputTokens : Option Nat := none
  costUsd : Option ℚ := none
  outcome : ModelOutcome
  errorType : Option String := none
  timestamp : Nat
deriving DecidableEq

structure ModelRollingStats where
  modelId : String
  taskType : TaskType
  calls : Nat
  errors : Nat
  ewmaLatencyMs : Option ℚ := none
  ewmaCostUsd : Option ℚ := none
  lastCallAt : Option Nat := none
  lastErrorAt : Option Nat := none
deriving DecidableEq

/-- Map key of the in-memory store: modelId ++ "::" ++ taskType. -/
def statsKey (modelId : String) (taskType : TaskType) : String :=
  modelId ++ "::" ++ taskType.toKey

/-- JS Map.get over the insertion-ordered association list of the store. -/
def mapGet (m : List (String × ModelRollingStats)) (k : String) : Option ModelRollingStats :=
  (m.find? (fun kv => kv.1 = k)).map (fun kv => kv.2)

/-- JS Map.set: replace in place when the key exists, append otherwise. -/
def mapSet (m : List (String × ModelRollingStats)) (k : String) (v : ModelRollingStats) :
    List (String × ModelRollingStats) :=
  if m.any (fun kv => kv.1 = k) then
    m.map (fun kv => if kv.1 = k then (k, v) else kv)
  else
    m ++ [(k, v)]

/-- EWMA update of part_003: seed with the first observed value when no prior exists. -/
def ewma (current : Option ℚ) (value : ℚ) (alpha : ℚ) : ℚ :=
  match current with
  | none => value
  | some c => alpha * value + (1 - alpha) * c

/-- Default smoothing factor of InMemoryModelMetricsStore. -/
def defaultAlpha : ℚ := 1/5

/-- InMemoryModelMetricsStore.record of part_003, acting on the association-list state. -/
def recordCall (alpha : ℚ) (stats : List (String × ModelRollingStats))
    (m : ModelCallMetrics) : List (String × ModelRollingStats) :=
  let key := statsKey m.modelId m.taskType
  let base : ModelRollingStats :=
    match mapGet stats key with
    | some s => s
    | none =>
        { modelId := m.modelId, taskType := m.taskType, calls := 0, errors := 0 }
  let next1 := { base with calls := base.calls + 1 }
  let next2 :=
    if m.outcome = ModelOutcome.error ∨ m.outcome = ModelOutcome.fallback_error then
      { next1 with errors := next1.errors + 1, lastErrorAt := some m.timestamp }
    else next1
  let next3 := { next2 with lastCallAt := some m.timestamp }
  let next4 := { next3 with ewmaLatencyMs := some (ewma next3.ewmaLatencyMs m.latencyMs alpha) }
  let next5 :=
    match m.costUsd with
    | some c => { next4 with ewmaCostUsd := some (ewma next4.ewmaCostUsd c alpha) }
    | none => next4
  mapSet stats key next5

/-! ## Model router (packages/models/src/router.ts) -/

/-- Read-only view the router takes of the metrics store. -/
abbrev MetricsFn := String → TaskType → Option ModelRollingStats

def matchesRequirements (profile : ModelProfile) (task : TaskSpec) : Bool :=
  match task.required with
  | none => true
  | some required =>
    if required.tools.getD false && !profile.capabilities.supportsTools then false
    else if required.jsonOutput.getD false && !profile.capabilities.supportsJson then false
    else if required.longContext.getD false && !profile.capabilities.supportsLongContext then false
    else true

def matchesBudget (profile : ModelProfile) (task : TaskSpec) : Bool :=
  match task.budget with
  | none => true
  | some budget =>
    match budget.maxLatencyMs with
    | none => true
    | some maxLat => decide (profile.latency.p95Ms ≤ maxLat)

def clamp (value lo hi : ℚ) : ℚ := min hi (max lo value)

def suitabilityOf (s : ModelSuitability) : TaskType → ℚ
  | .tradingDecision => s.tradingDecision
  | .marketAnalysis => s.marketAnalysis
  | .search => s.search
  | .summarization => s.summarization
  | .extraction => s.extraction

def scoreProfile (profile : ModelProfile) (task : TaskSpec) (metrics : MetricsFn) : ℚ :=
  let baseSuitability := suitabilityOf profile.suitability task.taskType
  let stats := metrics profile.id task.taskType
  let errorRate : ℚ :=
    match stats with
    | some s => if 0 < s.calls then (s.errors : ℚ) / (s.calls : ℚ) else 0
    | none => 0
  let reliability := clamp (1 - errorRate) (1/5) 1
  let latencyMs : ℚ :=
    match stats with
    | some s => s.ewmaLatencyMs.getD profile.latency.p50Ms
    | none => profile.latency.p50Ms
  let costScore : ℚ :=
    if 0 < profile.cost.inputUsdPer1kTokens + profile.cost.outputUsdPer1kTokens then
      1 / (profile.cost.inputUsdPer1kTokens + profile.cost.outputUsdPer1kTokens)
    else 1
  let latencyScore : ℚ := 1000 / max 200 latencyMs
  let priorityBoost : ℚ :=
    match task.priority with
    | .quality => 1
    | .latency => latencyScore
    | .cost => costScore
  baseSuitability * reliability * priorityBoost

/-- Insertion into a descending-by-score list: the new element passes over
every element whose score is not strictly smaller and lands before the first
strictly smaller one. -/
def insertSortedDesc (x : ModelProfile × ℚ) :
    List (ModelProfile × ℚ) → List (ModelProfile × ℚ)
  | [] => [x]
  | y :: ys => if y.2 < x.2 then x :: y :: ys else y :: insertSortedDesc x ys

/-- Stable descending sort by score, as a left fold of insertions: elements
are processed in original order and each lands after every already-placed
element of equal score, so ties keep their original relative order.
Array.prototype.sort with the comparator (a, b) => b.score - a.score is
stable (ES2019) and the comparator induces a total preorder, so its result
coincides with this sort. -/
def sortByScoreDesc (l : List (ModelProfile × ℚ)) : List (ModelProfile × ℚ) :=
  l.foldl (fun acc x => insertSortedDesc x acc) []

/-- The reason tag of the automatic path. -/
def autoReason (task : TaskSpec) : String :=
  "auto:" ++ task.taskType.toKey ++ ":" ++ task.priority.toKey

/-- enabledEligible of router.ts: enabled-by-default profiles passing the
requirement and budget filters. -/
def enabledEligibleOf (profiles : List ModelProfile) (task : TaskSpec) : List ModelProfile :=
  ((profiles.filter (fun p => p.enabledByDefault)).filter
    (fun p => matchesRequirements p task)).filter (fun p => matchesBudget p task)

/-- eligible of router.ts: widen to all profiles under the same filters when
no enabled-by-default profile qualifies. -/
def eligibleOf (profiles : List ModelProfile) (task : TaskSpec) : List ModelProfile :=
  if 0 < (enabledEligibleOf profiles task).length then enabledEligibleOf profiles task
  else (profiles.filter (fun p => matchesRequirements p task)).filter
    (fun p => matchesBudget p task)

/-- The scored eligible profiles, sorted descending by score. -/
def sortedScoredOf (profiles : List ModelProfile) (metrics : MetricsFn) (task : TaskSpec) :
    List (ModelProfile × ℚ) :=
  sortByScoreDesc ((eligibleOf profiles task).map (fun p => (p, scoreProfile p task metrics)))

/-- candidates of router.ts, with k = Math.max(1, maxCandidates): top k scored
profiles, degrading to the first k profiles of the unfiltered catalog when
nothing at all was eligible. -/
def autoCandidatesOf (profiles : List ModelProfile) (metrics : MetricsFn) (task : TaskSpec)
    (k : Nat) : List ModelProfile :=
  if 0 < (sortedScoredOf profiles metrics task).length then
    ((sortedScoredOf profiles metrics task).take k).map (fun s => s.1)
  else profiles.take k

/-- The non-override path of select (router.ts lines 36-68). -/
def selectAuto (profiles : List ModelProfile) (metrics : MetricsFn) (task : TaskSpec)
    (maxCandidatesOpt : Option Nat) : Except String ModelSelection :=
  let candidates := autoCandidatesOf profiles metrics task (max 1 (maxCandidatesOpt.getD 3))
  match candidates.head?.orElse (fun _ => profiles.head?) with
  | some primary => .ok { primary := primary, candidates := candidates, reason := autoReason task }
  | none => .error "No model profiles configured."

/-- select of router.ts.  The override branch tests JS truthiness of the
override string, so an empty-string override is skipped exactly like an
absent one; an override that matches no profile id falls through silently. -/
def select (profiles : List ModelProfile) (metrics : MetricsFn) (task : TaskSpec)
    (overrideModelId : Option String) (maxCandidatesOpt : Option Nat) :
    Except String ModelSelection :=
  let overrideSel : Option ModelSelection :=
    match overrideModelId with
    | some ov =>
      if ov = "" then none
      else
        match profiles.find? (fun p => p.id = ov) with
        | some profile => some { primary := profile, candidates := [profile], reason := "manual_override" }
        | none => none
    | none => none
  match overrideSel with
  | some sel => .ok sel
  | none => selectAuto profiles metrics task maxCandidatesOpt

/-! ## Swarm scheduler (AgentOrchestrator delegateTasks execute, src/unnamed/part_011) -/

/-- A sub-task of the delegateTasks input schema. -/
structure STask where
  id : String
  agentId : String
  taskDescription : String
  dependsOn : Option (List String) := none
deriving DecidableEq

/-- Outcome of one worker invocation (getAgent + subAgent.respond), with its
observed duration in milliseconds.  An err outcome models the promise of that
task rejecting (respond throwing, or getAgent raising AgentConfigError). -/
inductive InvokeOutcome
  | ok (strategy : String) (result : String) (latencyMs : Nat) (steps : Nat)
  | err (message : String) (latencyMs : Nat)
deriving DecidableEq

/-- The injected worker: a deterministic function of the task and the enriched
description it receives. -/
abbrev Invoke := STask → String → InvokeOutcome

def isOkB : InvokeOutcome → Bool
  | .ok _ _ _ _ => true
  | .err _ _ => false

def invokeLatency : InvokeOutcome → Nat
  | .ok _ _ lat _ => lat
  | .err _ lat => lat

/-- One entry of executionResults. -/
structure ExecResult where
  id : String
  agentId : String
  strategy : String
  result : String
  latencyMs : Nat
  steps : Nat
deriving DecidableEq

/-- new Map(tasks.map(t => [t.id, t])): the last task with a given id wins. -/
def taskMapGet (tasks : List STask) (id : String) : Option STask :=
  tasks.reverse.find? (fun t => t.id = id)

/-- Dependency list of the task a given id resolves to (empty when absent). -/
def depsOfId (tasks : List STask) (id : String) : List String :=
  match taskMapGet tasks id with
  | some t => t.dependsOn.getD []
  | none => []

/-- results.has over the insertion-ordered completed map. -/
def resultsHas (results : List (String × String)) (id : String) : Bool :=
  results.any (fun kv => kv.1 = id)

def resultsGet (results : List (String × String)) (id : String) : Option String :=
  (results.find? (fun kv => kv.1 = id)).map (fun kv => kv.2)

/-- JSON.stringify of a completed payload; the payload is opaque to the
scheduler, so it is modelled as a string and quoting is not escaped.
JSON.stringify of undefined renders as the text undefined in the template. -/
def jsonStringifyPayload : Option String → String
  | some s => "\"" ++ s ++ "\""
  | none => "undefined"

def depContext (results : List (String × String)) (deps : List String) : String :=
  String.intercalate "\n"
    (deps.map (fun id => "Result of " ++ id ++ ": " ++ jsonStringifyPayload (resultsGet results id)))

/-- enrichedDescription as built in the stage callback. -/
def enrichedDescription (t : STask) (results : List (String × String)) : String :=
  match t.dependsOn with
  | some deps =>
    if 0 < deps.length then
      t.taskDescription ++ "\n\nContext from previous tasks:\n" ++ depContext results deps
    else t.taskDescription
  | none => t.taskDescription

/-- Readiness filter of the scheduling loop: no dependsOn, or every dependency
already in the completed map.  An id that resolves to no task is treated as
never ready; in the source this state is unreachable because the remaining
set always holds ids of submitted tasks. -/
def ready (tasks : List STask) (results : List (String × String)) (taskId : String) : Bool :=
  match taskMapGet tasks taskId with
  | none => false
  | some t =>
    match t.dependsOn with
    | none => true
    | some deps => deps.all (fun d => resultsHas results d)

/-- Launching one stage: every ready id is invoked with its enriched
description built from the same completed-map snapshot. -/
def runStage (invoke : Invoke) (tasks : List STask) (results : List (String × String))
    (stageIds : List String) : List (String × STask × InvokeOutcome) :=
  stageIds.filterMap (fun id =>
    (taskMapGet tasks id).map (fun t => (id, t, invoke t (enrichedDescription t results))))

def toExecResult (id : String) (t : STask) : InvokeOutcome → Option ExecResult
  | .ok strategy result lat steps =>
      some { id := id, agentId := t.agentId, strategy := strategy,
             result := result, latencyMs := lat, steps := steps }
  | .err _ _ => none

def stageResultsOf (invoke : Invoke) (tasks : List STask) (results : List (String × String))
    (stageIds : List String) : List ExecResult :=
  (runStage invoke tasks results stageIds).filterMap (fun x => toExecResult x.1 x.2.1 x.2.2)

/-- One step of the earliest-rejection scan over the outcomes of a stage. -/
def firstFailureStep (best : Option (String × Nat)) (x : String × STask × InvokeOutcome) :
    Option (String × Nat) :=
  match x.2.2, best with
  | .err msg lat, none => some (msg, lat)
  | .err msg lat, some (bm, bl) => if lat < bl then some (msg, lat) else some (bm, bl)
  | _, best => best

/-- Promise.all of a stage settles with the earliest rejection when one
exists: the failing invocation with the smallest latency, breaking the
(unobservable) simultaneous tie in favour of the earlier array position. -/
def firstFailure (outs : List (String × STask × InvokeOutcome)) : Option (String × Nat) :=
  outs.foldl firstFailureStep none

/-- Wall-clock duration of a successful stage: its tasks run concurrently, so
the stage settles at the largest single-task latency. -/
def stageMaxLatency (stage : List ExecResult) : Nat :=
  (stage.map (fun r => r.latencyMs)).foldl max 0

def cycleMessage : String := "Circular dependency detected in tasks"

/-- Result of the inner async scheduling loop, ignoring the deadline race:
done carries the executed stages (executionResults grouped by stage),
totalLatencyMs, totalCriticalSteps and the settle time of the loop promise;
failed carries the rejection message, the stages already executed at that
point, and the rejection time. -/
inductive LoopOutcome
  | done (stages : List (List ExecResult)) (totalLatencyMs : Nat)
      (criticalSteps : Nat) (endTime : Nat)
  | failed (message : String) (stages : List (List ExecResult)) (errTime : Nat)
deriving DecidableEq

/-- The while loop of the delegateTasks execute function.  Fuel is the number
of remaining ids at entry; every productive iteration removes at least one id,
so the fuel-exhausted row is unreachable from runLoopTop (its message is
deliberately distinct from every message the source can produce). -/
def runLoopAux (invoke : Invoke) (tasks : List STask) :
    Nat → List String → List (String × String) → List (List ExecResult) →
    Nat → Nat → Nat → LoopOutcome
  | _, [], _results, stages, tl, cs, el => .done stages tl cs el
  | 0, _ :: _, _results, stages, _tl, _cs, el =>
      .failed "unreachable: fuel exhausted" stages el
  | fuel + 1, id0 :: rest, results, stages, tl, cs, el =>
    let remaining := id0 :: rest
    let stageIds := remaining.filter (fun id => ready tasks results id)
    if stageIds.isEmpty then .failed cycleMessage stages el
    else
      let outs := runStage invoke tasks results stageIds
      match firstFailure outs with
      | some (msg, lat) => .failed msg stages (el + lat)
      | none =>
        let stageResults := stageResultsOf invoke tasks results stageIds
        runLoopAux invoke tasks fuel
          (remaining.filter (fun id => !(stageIds.contains id)))
          (results ++ stageResults.map (fun r => (r.id, r.result)))
          (stages ++ [stageResults])
          (tl + (stageResults.map (fun r => r.latencyMs)).sum)
          (cs + (stageResults.map (fun r => r.steps)).foldl max 0)
          (el + stageMaxLatency stageResults)

/-- JS Set built from tasks.map(t => t.id): deduplicates keeping the first
occurrence order. -/
def insertionDedupAux (seen : List String) : List String → List String
  | [] => []
  | x :: xs =>
    if seen.contains x then insertionDedupAux seen xs
    else x :: insertionDedupAux (x :: seen) xs

def insertionDedup (l : List String) : List String := insertionDedupAux [] l

def orchestrationOverhead : Nat := 1

def DECISION_DEADLINE_MS : Nat := 30000

/-- The scheduling-loop promise of one delegateTasks call, started with the
full remaining set, empty completed map, and criticalSteps seeded with the
orchestration overhead. -/
def runLoopTop (tasks : List STask) (invoke : Invoke) : LoopOutcome :=
  runLoopAux invoke tasks (insertionDedup (tasks.map (fun t => t.id))).length
    (insertionDedup (tasks.map (fun t => t.id))) [] [] 0 orchestrationOverhead 0

def loopSettleTime : LoopOutcome → Nat
  | .done _ _ _ t => t
  | .failed _ _ t => t

structure ParallelizationMetrics where
  totalSubagents : Nat
  wallClockTimeMs : Nat
  criticalSteps : Nat
  latencyReductionVsSequential : ℚ
  serialCollapseDetected : Bool
  bottleneckAgent : Option String
  bottleneckDurationMs : Option Nat
  parallelismEfficiency : ℚ
deriving DecidableEq

/-- executionResults.reduce keeping prev only while strictly slower, so the
last of several equally slow tasks wins. -/
def slowestTask : List ExecResult → Option ExecResult
  | [] => none
  | r :: rs =>
    some (rs.foldl (fun prev current =>
      if current.latencyMs < prev.latencyMs then prev else current) r)

def deadlineMessage : String := "Decision deadline of 30000ms exceeded"

/-- Observable result of the delegateTasks execute function: the success
object, or the catch-branch object carrying only the error message,
tasks.length and the wall-clock time with a failed status.  Rational division
models JS division; the zero wall-clock case (NaN in JS) is not a subject of
any claim. -/
inductive ExecOutput
  | success (results : List ExecResult) (metrics : ParallelizationMetrics)
  | failure (error : String) (totalSubagents : Nat) (wallClockTimeMs : Nat)
deriving DecidableEq

/-- The deadline race and result assembly of delegateTasks execute.  The
loop promise wins the race when it settles no later than the timer; both
error paths (loop rejection before the deadline, timer firing first) land in
the catch branch, which returns the reduced failure object. -/
def execute (tasks : List STask) (invoke : Invoke) : ExecOutput :=
  match runLoopTop tasks invoke with
  | .done stages totalLatencyMs criticalSteps t =>
    if t ≤ DECISION_DEADLINE_MS then
      let executionResults := stages.flatten
      let slowest := slowestTask executionResults
      .success executionResults
        { totalSubagents := tasks.length
          wallClockTimeMs := t
          criticalSteps := criticalSteps
          latencyReductionVsSequential := (totalLatencyMs : ℚ) / (t : ℚ)
          serialCollapseDetected := decide (tasks.length < 3)
          bottleneckAgent := slowest.map (fun r => r.agentId)
          bottleneckDurationMs := slowest.map (fun r => r.latencyMs)
          parallelismEfficiency := (tasks.length : ℚ) / ((t : ℚ) / 1000) }
    else .failure deadlineMessage tasks.length DECISION_DEADLINE_MS
  | .failed msg _ t =>
    if t ≤ DECISION_DEADLINE_MS then .failure msg tasks.length t
    else .failure deadlineMessage tasks.length DECISION_DEADLINE_MS

/-! ## Lemmas about the metrics store map -/

theorem find_replace_of_any {m : List (String × ModelRollingStats)} {k : String}
    (v : ModelRollingStats) (h : m.any (fun kv => kv.1 = k) = true) :
    (m.map (fun kv => if kv.1 = k then (k, v) else kv)).find? (fun kv => kv.1 = k)
      = some (k, v) := by
  induction m with
  | nil => simp at h
  | cons kv0 rest ih =>
    by_cases h0 : kv0.1 = k
    · simp [List.find?, h0]
    · have hrest : rest.any (fun kv => kv.1 = k) = true := by
        simp only [List.any_cons, Bool.or_eq_true] at h
        rcases h with h | h
        · exact absurd (of_decide_eq_true h) h0
        · exact h
      simpa [List.find?, h0] using ih hrest

theorem mapGet_mapSet_self (m : List (String × ModelRollingStats)) (k : String)
    (v : ModelRollingStats) : mapGet (mapSet m k v) k = some v := by
  unfold mapSet
  by_cases h : m.any (fun kv => kv.1 = k) = true
  · rw [if_pos h]
    unfold mapGet
    rw [find_replace_of_any v h]
    rfl
  · rw [if_neg h]
    unfold mapGet
    have hnone : m.find? (fun kv => decide (kv.1 = k)) = none := by
      rw [List.find?_eq_none]
      intro x hx hxk
      exact h (List.any_eq_true.mpr ⟨x, hx, hxk⟩)
    rw [List.find?_append, hnone]
    simp [List.find?]

/-! ## C9: per-record behaviour of the metrics store -/

/-- Row update as described by the specification: lazily created row, call
count incremented, error count and last-error timestamp touched exactly for
error and fallback_error outcomes, last-call timestamp always set, EWMA
latency updated by alpha-blend seeded with the first observed value, EWMA
cost updated the same way only when a cost is present.  Stated from the spec
wording to compare against recordCall. -/
def specRecordRow (old : Option ModelRollingStats) (m : ModelCallMetrics) (alpha : ℚ) :
    ModelRollingStats :=
  let base := old.getD { modelId := m.modelId, taskType := m.taskType, calls := 0, errors := 0 }
  let isErr := m.outcome = ModelOutcome.error ∨ m.outcome = ModelOutcome.fallback_error
  { base with
    calls := base.calls + 1
    errors := base.errors + (if isErr then 1 else 0)
    lastErrorAt := if isErr then some m.timestamp else base.lastErrorAt
    lastCallAt := some m.timestamp
    ewmaLatencyMs := some (match base.ewmaLatencyMs with
      | none => m.latencyMs
      | some prev => alpha * m.latencyMs + (1 - alpha) * prev)
    ewmaCostUsd := match m.costUsd with
      | some c => some (match base.ewmaCostUsd with
          | none => c
          | some prev => alpha * c + (1 - alpha) * prev)
      | none => base.ewmaCostUsd }

/-- C9: for every prior store state and every record call, the row stored
under the key of (modelId, taskType) afterwards is exactly the spec-described
update of the previous row under that key: lazily created, call count +1,
error count and last-error timestamp exactly on error or fallback_error
outcomes, last-call timestamp set, EWMA latency alpha-blended with alpha =
0.2 and seeded with the first observation, EWMA cost likewise only when a
cost value is present. -/
theorem c9_record_updates_row (stats : List (String × ModelRollingStats))
    (m : ModelCallMetrics) :
    mapGet (recordCall defaultAlpha stats m) (statsKey m.modelId m.taskType)
      = some (specRecordRow (mapGet stats (statsKey m.modelId m.taskType)) m defaultAlpha) := by
  unfold recordCall specRecordRow
  rw [mapGet_mapSet_self]
  cases hold : mapGet stats (statsKey m.modelId m.taskType) with
  | none =>
    cases hc : m.costUsd <;>
      by_cases he : (m.outcome = ModelOutcome.error ∨ m.outcome = ModelOutcome.fallback_error) <;>
        simp [hold, hc, he, ewma, Option.getD]
  | some s =>
    cases hold2 : s.ewmaLatencyMs <;> cases hc : m.costUsd <;>
      by_cases he : (m.outcome = ModelOutcome.error ∨ m.outcome = ModelOutcome.fallback_error) <;>
        cases hcost : s.ewmaCostUsd <;>
          simp [hold, hold2, hc, he, hcost, ewma, Option.getD]

/-! ## Shared concrete router fixtures -/

/-- A fully concrete profile used by several concrete scenarios. -/
def mkProfile (id : String) (suit : ℚ) : ModelProfile :=
  { id := id, provider := .google, modelName := id, enabledByDefault := true,
    cost := { inputUsdPer1kTokens := 1, outputUsdPer1kTokens := 1 },
    latency := { p50Ms := 300, p95Ms := 800 },
    capabilities := { supportsTools := true, supportsJson := true,
                      supportsLongContext := true, maxContextTokens := 100000 },
    suitability := { tradingDecision := suit, marketAnalysis := suit, search := suit,
                     summarization := suit, extraction := suit } }

def c8P1 : ModelProfile := mkProfile "m1" (9/10)

def c8P2 : ModelProfile := mkProfile "m2" (7/10)

/-- Twenty recorded calls, all errors, for the m2 profile. -/
def c8Stats : ModelRollingStats :=
  { modelId := "m2", taskType := .marketAnalysis, calls := 20, errors := 20,
    ewmaLatencyMs := some 100 }

def c8Metrics : MetricsFn := fun id _ => if id = "m2" then some c8Stats else none

def c8Spec : TaskSpec := { taskType := .marketAnalysis, priority := .quality }

/-! ## C10: an unknown override is silently ignored -/

/-- C10: when the override id matches no profile in the catalog, select
returns exactly what the identical call without an override returns. -/
theorem c10_unknown_override_ignored (profiles : List ModelProfile) (metrics : MetricsFn)
    (task : TaskSpec) (s : String) (maxCandidatesOpt : Option Nat)
    (h : ∀ p ∈ profiles, p.id ≠ s) :
    select profiles metrics task (some s) maxCandidatesOpt
      = select profiles metrics task none maxCandidatesOpt := by
  unfold select
  have hf : profiles.find? (fun p => p.id = s) = none := by
    rw [List.find?_eq_none]
    intro p hp hps
    exact h p hp (of_decide_eq_true hps)
  by_cases hs : s = "" <;> simp [hs, hf]

theorem c10_unknown_override_ignored_witness :
    select [c8P1, c8P2] c8Metrics c8Spec (some "zz") none
      = select [c8P1, c8P2] c8Metrics c8Spec none none :=
  c10_unknown_override_ignored [c8P1, c8P2] c8Metrics c8Spec "zz" none (by decide)

/-! ## C2: manual override -/

def c2Profile : ModelProfile := mkProfile "" (1/2)

def c2Spec : TaskSpec := { taskType := .tradingDecision, priority := .quality }

/-- C2 counterexample: with a catalog containing a profile whose id is the
empty string and overrideModelId equal to that id, the claim demands reason
manual_override, but the truthiness test skips the override branch and the
call takes the automatic path instead. -/
theorem c2_counterexample :
    c2Profile.id = "" ∧
    select [c2Profile] (fun _ _ => none) c2Spec (some "") none
      = .ok { primary := c2Profile, candidates := [c2Profile],
              reason := "auto:tradingDecision:quality" } :=
  ⟨rfl, rfl⟩

/-- C2 as amended: when the override string is non-empty and resolves in the
catalog (to its first profile with that id), select returns immediately with
that profile as primary, a single-element candidate list and reason
manual_override, regardless of requirements, budget, scoring or metrics. -/
theorem c2_override_nonempty_wins (profiles : List ModelProfile) (metrics : MetricsFn)
    (task : TaskSpec) (s : String) (maxCandidatesOpt : Option Nat) (p : ModelProfile)
    (hs : s ≠ "") (hp : profiles.find? (fun q => q.id = s) = some p) :
    select profiles metrics task (some s) maxCandidatesOpt
      = .ok { primary := p, candidates := [p], reason := "manual_override" } ∧ p.id = s := by
  have h1 := List.find?_some hp
  have hid : p.id = s := of_decide_eq_true h1
  refine ⟨?_, hid⟩
  unfold select
  simp [hs, hp]

theorem c2_override_nonempty_wins_witness :
    (select [c8P1, c8P2] c8Metrics c8Spec (some "m2") none
      = .ok { primary := c8P2, candidates := [c8P2], reason := "manual_override" })
      ∧ c8P2.id = "m2" :=
  c2_override_nonempty_wins [c8P1, c8P2] c8Metrics c8Spec "m2" none c8P2
    (by decide) (by rfl)

/-! ## C7: the router never throws on a non-empty catalog -/

theorem take_head?_of_ne_zero {α : Type} (k : Nat) (l : List α) (hk : k ≠ 0) :
    (l.take k).head? = l.head? := by
  cases l with
  | nil => simp
  | cons a as =>
    cases k with
    | zero => exact absurd rfl hk
    | succ k => simp [List.take]

theorem autoCandidatesOf_ne_nil (profiles : List ModelProfile) (metrics : MetricsFn)
    (task : TaskSpec) (k : Nat) (hp : profiles ≠ []) (hk : k ≠ 0) :
    autoCandidatesOf profiles metrics task k ≠ [] := by
  unfold autoCandidatesOf
  by_cases h : 0 < (sortedScoredOf profiles metrics task).length
  · rw [if_pos h]
    intro heq
    rw [List.map_eq_nil_iff] at heq
    rcases List.take_eq_nil_iff.mp heq with h0 | h0
    · exact hk h0
    · rw [h0] at h
      simp at h
  · rw [if_neg h]
    intro heq
    rcases List.take_eq_nil_iff.mp heq with h0 | h0
    · exact hk h0
    · exact hp h0

/-- C7: on a non-empty catalog with no override, select always returns a
selection; when no profile at all passes the requirement and budget filters
it degrades to the first max(1, maxCandidates) profiles of the unfiltered
catalog with the first as primary; and an error is returned exactly when the
catalog is empty. -/
theorem c7_router_soft_degrade (profiles : List ModelProfile) (metrics : MetricsFn)
    (task : TaskSpec) (maxCandidatesOpt : Option Nat) :
    (profiles ≠ [] →
      ∃ sel, select profiles metrics task none maxCandidatesOpt = .ok sel) ∧
    (∀ p0, profiles.head? = some p0 →
      (∀ p ∈ profiles, ¬(matchesRequirements p task = true ∧ matchesBudget p task = true)) →
      select profiles metrics task none maxCandidatesOpt
        = .ok { primary := p0,
                candidates := profiles.take (max 1 (maxCandidatesOpt.getD 3)),
                reason := autoReason task }) ∧
    (∀ e, select profiles metrics task none maxCandidatesOpt = .error e → profiles = []) ∧
    (profiles = [] →
      select profiles metrics task none maxCandidatesOpt
        = .error "No model profiles configured.") := by
  have hk : max 1 (maxCandidatesOpt.getD 3) ≠ 0 := by positivity
  have hsel : select profiles metrics task none maxCandidatesOpt
      = selectAuto profiles metrics task maxCandidatesOpt := rfl
  have hok : profiles ≠ [] →
      ∃ sel, select profiles metrics task none maxCandidatesOpt = .ok sel := by
    intro hp
    rw [hsel]
    unfold selectAuto
    rcases hcand : autoCandidatesOf profiles metrics task (max 1 (maxCandidatesOpt.getD 3)) with
      _ | ⟨c, cs⟩
    · exact absurd hcand (autoCandidatesOf_ne_nil profiles metrics task _ hp hk)
    · exact ⟨_, rfl⟩
  refine ⟨hok, ?_, ?_, ?_⟩
  · intro p0 hp0 hnone
    have hp : profiles ≠ [] := by
      intro h
      rw [h] at hp0
      simp at hp0
    have henab : enabledEligibleOf profiles task = [] := by
      unfold enabledEligibleOf
      rw [List.filter_eq_nil_iff]
      intro a ha
      have ha1 := (List.mem_filter.mp ha).1
      have hreq := (List.mem_filter.mp ha).2
      have hmem := (List.mem_filter.mp ha1).1
      intro hbud
      exact hnone a hmem ⟨hreq, hbud⟩
    have hwide : (profiles.filter (fun p => matchesRequirements p task)).filter
        (fun p => matchesBudget p task) = [] := by
      rw [List.filter_eq_nil_iff]
      intro a ha
      have hmem := (List.mem_filter.mp ha).1
      have hreq := (List.mem_filter.mp ha).2
      intro hbud
      exact hnone a hmem ⟨hreq, hbud⟩
    have helig : eligibleOf profiles task = [] := by
      unfold eligibleOf
      rw [henab, hwide]
      simp
    have hsort : sortedScoredOf profiles metrics task = [] := by
      unfold sortedScoredOf
      rw [helig]
      rfl
    have hcand : autoCandidatesOf profiles metrics task (max 1 (maxCandidatesOpt.getD 3))
        = profiles.take (max 1 (maxCandidatesOpt.getD 3)) := by
      unfold autoCandidatesOf
      rw [hsort]
      simp
    rw [hsel]
    unfold selectAuto
    rw [hcand]
    have hhead : (profiles.take (max 1 (maxCandidatesOpt.getD 3))).head? = some p0 := by
      rw [take_head?_of_ne_zero _ _ hk]
      exact hp0
    simp [hhead, Option.orElse]
  · intro e he
    by_contra hp
    rcases hok hp with ⟨sel, hsel2⟩
    rw [hsel2] at he
    exact Except.noConfusion he
  · intro hp
    subst hp
    rw [hsel]
    unfold selectAuto autoCandidatesOf sortedScoredOf eligibleOf enabledEligibleOf
    simp [sortByScoreDesc, Option.orElse]

theorem c7_router_soft_degrade_witness :
    (∃ sel, select [c8P1] c8Metrics c8Spec none none = .ok sel) ∧
    ([] : List ModelProfile) = [] := by
  refine ⟨(c7_router_soft_degrade [c8P1] c8Metrics c8Spec none).1 (by decide), rfl⟩

/-! ## C8: reliability penalty scenario -/

/-- A profile literal with everything but id, cost, latency, capabilities and
suitability fixed, used to state the two-profile scoring scenario. -/
def namedProfile (id : String) (cost : ModelCostProfile) (lat : ModelLatencyProfile)
    (caps : ModelCapabilities) (suit : ModelSuitability) : ModelProfile :=
  { id := id, provider := .google, modelName := id, enabledByDefault := true,
    cost := cost, latency := lat, capabilities := caps, suitability := suit }

/-- Score of a profile with no recorded history under quality priority: the
bare suitability weight. -/
theorem score_quality_of_no_history (profile : ModelProfile) (task : TaskSpec)
    (metrics : MetricsFn) (hq : task.priority = .quality)
    (hst : metrics profile.id task.taskType = none) :
    scoreProfile profile task metrics = suitabilityOf profile.suitability task.taskType := by
  simp only [scoreProfile, hst, hq, clamp]
  have h2 : max (1/5 : ℚ) (1 - 0) = 1 := by
    rw [max_eq_right] <;> norm_num
  rw [h2, min_self, mul_one, mul_one]

/-- Score of a profile whose whole recorded history errored, under quality
priority: suitability times the reliability floor 0.2. -/
theorem score_quality_of_all_errors (profile : ModelProfile) (task : TaskSpec)
    (metrics : MetricsFn) (s : ModelRollingStats) (hq : task.priority = .quality)
    (hst : metrics profile.id task.taskType = some s)
    (hpos : 0 < s.calls) (herr : s.errors = s.calls) :
    scoreProfile profile task metrics
      = suitabilityOf profile.suitability task.taskType * (1/5) := by
  simp only [scoreProfile, hst, hq, clamp, herr]
  rw [if_pos hpos]
  have hc : ((s.calls : ℚ)) ≠ 0 := by
    exact_mod_cast Nat.pos_iff_ne_zero.mp hpos
  rw [div_self hc]
  have h2 : max (1/5 : ℚ) (1 - 1) = 1/5 := by
    rw [max_eq_left] <;> norm_num
  have h3 : min (1 : ℚ) (1/5) = 1/5 := by
    rw [min_eq_right] <;> norm_num
  rw [h2, h3, mul_one]

/-- Selection over a two-profile catalog where both profiles are enabled and
pass the filters and the first strictly outscores the second. -/
theorem quality_pair_select (P1 P2 : ModelProfile) (metrics : MetricsFn) (task : TaskSpec)
    (hen1 : P1.enabledByDefault = true) (hen2 : P2.enabledByDefault = true)
    (hreq1 : matchesRequirements P1 task = true) (hreq2 : matchesRequirements P2 task = true)
    (hbud1 : matchesBudget P1 task = true) (hbud2 : matchesBudget P2 task = true)
    (hscore : scoreProfile P2 task metrics < scoreProfile P1 task metrics) :
    select [P1, P2] metrics task none none
      = .ok { primary := P1, candidates := [P1, P2], reason := autoReason task } := by
  have henab : enabledEligibleOf [P1, P2] task = [P1, P2] := by
    unfold enabledEligibleOf
    simp [List.filter_cons, hen1, hen2, hreq1, hreq2, hbud1, hbud2]
  have hsort : sortedScoredOf [P1, P2] metrics task
      = [(P1, scoreProfile P1 task metrics), (P2, scoreProfile P2 task metrics)] := by
    unfold sortedScoredOf eligibleOf
    rw [henab]
    simp only [List.length_cons, Nat.zero_lt_succ, if_pos, List.map_cons, List.map_nil,
      sortByScoreDesc, List.foldl_cons, List.foldl_nil, insertSortedDesc]
    rw [if_neg (lt_asymm hscore)]
  have hcand : autoCandidatesOf [P1, P2] metrics task (max 1 ((none : Option Nat).getD 3))
      = [P1, P2] := by
    unfold autoCandidatesOf
    rw [hsort]
    simp
  show selectAuto _ _ _ _ = _
  unfold selectAuto
  rw [hcand]
  rfl

/-- C8 counterexample: in the spec scenario (suitability 0.9 with no history
versus suitability 0.7 with 20 consecutive errors, quality priority), the
scores under the documented formula are 0.9 and 0.7 x 0.2 = 0.14, so select
returns the 0.9 profile as primary, not the 0.7 profile the claim demands. -/
theorem c8_counterexample :
    scoreProfile c8P1 c8Spec c8Metrics = 9/10 ∧
    scoreProfile c8P2 c8Spec c8Metrics = 7/50 ∧
    select [c8P1, c8P2] c8Metrics c8Spec none none
      = .ok { primary := c8P1, candidates := [c8P1, c8P2],
              reason := "auto:marketAnalysis:quality" } ∧
    c8P1.id ≠ c8P2.id := by
  have hs1 : scoreProfile c8P1 c8Spec c8Metrics = 9/10 := by
    rw [score_quality_of_no_history c8P1 c8Spec c8Metrics rfl rfl]
    norm_num [c8P1, c8Spec, mkProfile, suitabilityOf]
  have hs2 : scoreProfile c8P2 c8Spec c8Metrics = 7/50 := by
    rw [score_quality_of_all_errors c8P2 c8Spec c8Metrics c8Stats rfl rfl
      (by decide) (by decide)]
    norm_num [c8P2, c8Spec, mkProfile, suitabilityOf]
  refine ⟨hs1, hs2, ?_, by decide⟩
  have := quality_pair_select c8P1 c8P2 c8Metrics c8Spec rfl rfl rfl rfl rfl rfl
    (by rw [hs1, hs2]; norm_num)
  exact this

/-- C8 as amended: with two eligible profiles for a task type, one of
suitability 0.9 and no recorded history and one of suitability 0.7 with 20
recorded calls all of which errored, select under quality priority without an
override returns the 0.9-suitability profile as primary; the reliability
clamp at 0.2 keeps the error-laden profile as a trailing candidate only. -/
theorem c8_clean_profile_wins (cost1 cost2 : ModelCostProfile)
    (lat1 lat2 : ModelLatencyProfile) (caps1 caps2 : ModelCapabilities)
    (suit1 suit2 : ModelSuitability) (metrics : MetricsFn) (s2 : ModelRollingStats)
    (tt : TaskType)
    (hsuit1 : suitabilityOf suit1 tt = 9/10) (hsuit2 : suitabilityOf suit2 tt = 7/10)
    (hm1 : metrics "m1" tt = none) (hm2 : metrics "m2" tt = some s2)
    (hcalls : s2.calls = 20) (herrs : s2.errors = 20) :
    select [namedProfile "m1" cost1 lat1 caps1 suit1, namedProfile "m2" cost2 lat2 caps2 suit2]
      metrics { taskType := tt, priority := .quality } none none
      = .ok { primary := namedProfile "m1" cost1 lat1 caps1 suit1,
              candidates := [namedProfile "m1" cost1 lat1 caps1 suit1,
                             namedProfile "m2" cost2 lat2 caps2 suit2],
              reason := autoReason { taskType := tt, priority := .quality } } := by
  have hs1 : scoreProfile (namedProfile "m1" cost1 lat1 caps1 suit1)
      { taskType := tt, priority := .quality } metrics = 9/10 := by
    rw [score_quality_of_no_history _ _ _ rfl hm1]
    exact hsuit1
  have hs2 : scoreProfile (namedProfile "m2" cost2 lat2 caps2 suit2)
      { taskType := tt, priority := .quality } metrics = 7/10 * (1/5) := by
    rw [score_quality_of_all_errors _ _ _ s2 rfl hm2
      (by rw [hcalls]; norm_num) (by rw [hcalls, herrs])]
    rw [show (namedProfile "m2" cost2 lat2 caps2 suit2).suitability = suit2 from rfl, hsuit2]
  exact quality_pair_select _ _ _ _ rfl rfl rfl rfl rfl rfl
    (by rw [hs1, hs2]; norm_num)

theorem c8_clean_profile_wins_witness :
    select [c8P1, c8P2] c8Metrics c8Spec none none
      = .ok { primary := c8P1, candidates := [c8P1, c8P2],
              reason := "auto:marketAnalysis:quality" } :=
  c8_clean_profile_wins c8P1.cost c8P2.cost c8P1.latency c8P2.latency
    c8P1.capabilities c8P2.capabilities c8P1.suitability c8P2.suitability
    c8Metrics c8Stats .marketAnalysis rfl rfl rfl rfl rfl rfl

/-! ## Scheduler base lemmas -/

theorem mem_insertionDedupAux (l : List String) :
    ∀ (seen : List String) (x : String),
      x ∈ insertionDedupAux seen l ↔ x ∈ l ∧ x ∉ seen := by
  induction l with
  | nil => intro seen x; simp [insertionDedupAux]
  | cons a as ih =>
    intro seen x
    by_cases ha : a ∈ seen
    · simp only [insertionDedupAux, List.elem_iff.mpr ha, if_pos]
      rw [ih seen x, List.mem_cons]
      constructor
      · rintro ⟨hx, hxs⟩
        exact ⟨Or.inr hx, hxs⟩
      · rintro ⟨rfl | hx, hxs⟩
        · exact absurd ha hxs
        · exact ⟨hx, hxs⟩
    · have hc : seen.contains a = false := by
        rcases hb : seen.contains a with _ | _
        · rfl
        · exact absurd (List.elem_iff.mp hb) ha
      simp only [insertionDedupAux, hc, Bool.false_eq_true, if_neg, not_false_eq_true]
      rw [List.mem_cons, ih (a :: seen) x, List.mem_cons]
      by_cases hxa : x = a
      · subst hxa
        simp [ha]
      · simp only [hxa, false_or, List.mem_cons]

theorem nodup_insertionDedupAux (l : List String) :
    ∀ seen : List String, (insertionDedupAux seen l).Nodup := by
  induction l with
  | nil => intro seen; simp [insertionDedupAux]
  | cons a as ih =>
    intro seen
    by_cases ha : a ∈ seen
    · simpa only [insertionDedupAux, List.elem_iff.mpr ha, if_pos] using ih seen
    · have hc : seen.contains a = false := by
        rcases hb : seen.contains a with _ | _
        · rfl
        · exact absurd (List.elem_iff.mp hb) ha
      simp only [insertionDedupAux, hc, Bool.false_eq_true, if_neg, not_false_eq_true]
      refine List.Nodup.cons ?_ (ih (a :: seen))
      intro hmem
      have hm := (mem_insertionDedupAux as (a :: seen) a).mp hmem
      exact hm.2 (List.mem_cons_self a seen)

theorem length_insertionDedupAux_le (l : List String) :
    ∀ seen : List String, (insertionDedupAux seen l).length ≤ l.length := by
  induction l with
  | nil => intro seen; simp [insertionDedupAux]
  | cons a as ih =>
    intro seen
    by_cases ha : a ∈ seen
    · simp only [insertionDedupAux, List.elem_iff.mpr ha, if_pos, List.length_cons]
      exact Nat.le_trans (ih seen) (Nat.le_succ _)
    · have hc : seen.contains a = false := by
        rcases hb : seen.contains a with _ | _
        · rfl
        · exact absurd (List.elem_iff.mp hb) ha
      simp only [insertionDedupAux, hc, Bool.false_eq_true, if_neg, not_false_eq_true,
        List.length_cons]
      exact Nat.succ_le_succ (ih (a :: seen))

theorem mem_insertionDedup {l : List String} {x : String} :
    x ∈ insertionDedup l ↔ x ∈ l := by
  unfold insertionDedup
  rw [mem_insertionDedupAux]
  simp

theorem nodup_insertionDedup (l : List String) : (insertionDedup l).Nodup :=
  nodup_insertionDedupAux l []

theorem length_insertionDedup_le (l : List String) :
    (insertionDedup l).length ≤ l.length :=
  length_insertionDedupAux_le l []

theorem taskMapGet_eq_some {tasks : List STask} {id : String} {t : STask}
    (h : taskMapGet tasks id = some t) : t ∈ tasks ∧ t.id = id := by
  unfold taskMapGet at h
  have h2 := List.find?_some h
  exact ⟨List.mem_reverse.mp (List.mem_of_find?_eq_some h), of_decide_eq_true h2⟩

theorem taskMapGet_isSome_of_mem {tasks : List STask} {id : String}
    (h : id ∈ tasks.map (fun t => t.id)) : (taskMapGet tasks id).isSome = true := by
  rcases List.mem_map.mp h with ⟨t, ht, rfl⟩
  unfold taskMapGet
  rw [List.find?_isSome]
  exact ⟨t, List.mem_reverse.mpr ht, by simp⟩

theorem resultsHas_iff {results : List (String × String)} {id : String} :
    resultsHas results id = true ↔ id ∈ results.map (fun kv => kv.1) := by
  unfold resultsHas
  rw [List.any_eq_true]
  constructor
  · rintro ⟨kv, hkv, h⟩
    exact List.mem_map.mpr ⟨kv, hkv, of_decide_eq_true h⟩
  · intro h
    rcases List.mem_map.mp h with ⟨kv, hkv, h⟩
    exact ⟨kv, hkv, decide_eq_true h⟩

theorem resultsHas_append {a b : List (String × String)} {id : String} :
    resultsHas (a ++ b) id = (resultsHas a id || resultsHas b id) := by
  unfold resultsHas
  exact List.any_append

theorem ready_deps {tasks : List STask} {results : List (String × String)} {id : String}
    (h : ready tasks results id = true) :
    ∀ d ∈ depsOfId tasks id, resultsHas results d = true := by
  intro d hd
  unfold ready at h
  unfold depsOfId at hd
  cases hm : taskMapGet tasks id with
  | none =>
    simp only [hm] at h
    exact Bool.noConfusion h
  | some t =>
    simp only [hm] at h hd
    cases hdep : t.dependsOn with
    | none =>
      rw [hdep] at hd
      simp [Option.getD] at hd
    | some deps =>
      rw [hdep] at h hd
      simp only [Option.getD] at hd
      exact List.all_eq_true.mp h d hd

theorem ready_isSome {tasks : List STask} {results : List (String × String)} {id : String}
    (h : ready tasks results id = true) : (taskMapGet tasks id).isSome = true := by
  unfold ready at h
  cases hm : taskMapGet tasks id with
  | none =>
    simp only [hm] at h
    exact Bool.noConfusion h
  | some t => simp

theorem stageResultsOf_cons {invoke : Invoke} {tasks : List STask}
    {results : List (String × String)} {id : String} {ids : List String} {t : STask}
    {st r : String} {l stp : Nat}
    (ht : taskMapGet tasks id = some t)
    (hinv : invoke t (enrichedDescription t results) = InvokeOutcome.ok st r l stp) :
    stageResultsOf invoke tasks results (id :: ids)
      = { id := id, agentId := t.agentId, strategy := st, result := r,
          latencyMs := l, steps := stp } :: stageResultsOf invoke tasks results ids := by
  unfold stageResultsOf runStage
  simp [List.filterMap_cons, ht, hinv, toExecResult]

theorem stageResultsOf_map_id {invoke : Invoke} {tasks : List STask}
    {results : List (String × String)} (stageIds : List String)
    (hres : ∀ id ∈ stageIds, (taskMapGet tasks id).isSome = true)
    (hok : ∀ t ctx, isOkB (invoke t ctx) = true) :
    (stageResultsOf invoke tasks results stageIds).map (fun r => r.id) = stageIds := by
  induction stageIds with
  | nil => rfl
  | cons id ids ih =>
    rcases Option.isSome_iff_exists.mp (hres id (List.mem_cons_self id ids)) with ⟨t, ht⟩
    cases ho : invoke t (enrichedDescription t results) with
    | ok st r l stp =>
      rw [stageResultsOf_cons ht ho, List.map_cons,
        ih (fun x hx => hres x (List.mem_cons_of_mem id hx))]
    | err m l =>
      have := hok t (enrichedDescription t results)
      rw [ho] at this
      exact Bool.noConfusion this

theorem firstFailure_none (outs : List (String × STask × InvokeOutcome))
    (h : ∀ x ∈ outs, isOkB x.2.2 = true) : firstFailure outs = none := by
  induction outs with
  | nil => rfl
  | cons x xs ih =>
    unfold firstFailure at *
    rw [List.foldl_cons]
    have hx := h x (List.mem_cons_self x xs)
    cases ho : x.2.2 with
    | ok st r l stp =>
      have hstep : firstFailureStep none x = none := by
        unfold firstFailureStep
        rw [ho]
      rw [hstep]
      exact ih (fun y hy => h y (List.mem_cons_of_mem x hy))
    | err m l =>
      rw [ho] at hx
      exact Bool.noConfusion hx

theorem firstFailure_runStage_none {invoke : Invoke} {tasks : List STask}
    {results : List (String × String)} (stageIds : List String)
    (hok : ∀ t ctx, isOkB (invoke t ctx) = true) :
    firstFailure (runStage invoke tasks results stageIds) = none := by
  apply firstFailure_none
  intro x hx
  unfold runStage at hx
  rcases List.mem_filterMap.mp hx with ⟨id, _, hfx⟩
  rcases Option.map_eq_some'.mp hfx with ⟨t, _, rfl⟩
  exact hok t (enrichedDescription t results)

theorem stageResultsOf_latency_le {invoke : Invoke} {tasks : List STask}
    {results : List (String × String)} {stageIds : List String} {L : Nat}
    (hlat : ∀ t ctx, invokeLatency (invoke t ctx) ≤ L) :
    ∀ r ∈ stageResultsOf invoke tasks results stageIds, r.latencyMs ≤ L := by
  intro r hr
  unfold stageResultsOf at hr
  rcases List.mem_filterMap.mp hr with ⟨x, hx, hfx⟩
  unfold runStage at hx
  rcases List.mem_filterMap.mp hx with ⟨id, _, hgx⟩
  rcases Option.map_eq_some'.mp hgx with ⟨t, _, rfl⟩
  cases ho : invoke t (enrichedDescription t results) with
  | ok st r2 l stp =>
    have hb := hlat t (enrichedDescription t results)
    rw [ho] at hfx hb
    simp only [toExecResult, Option.some.injEq] at hfx
    subst hfx
    exact hb
  | err m l =>
    rw [ho] at hfx
    exact Option.noConfusion hfx

theorem foldl_max_le {l : List Nat} {L a : Nat} (ha : a ≤ L) (h : ∀ x ∈ l, x ≤ L) :
    l.foldl max a ≤ L := by
  induction l generalizing a with
  | nil => simpa using ha
  | cons x xs ih =>
    rw [List.foldl_cons]
    exact ih (Nat.max_le.mpr ⟨ha, h x (List.mem_cons_self x xs)⟩)
      (fun y hy => h y (List.mem_cons_of_mem x hy))

theorem stageMaxLatency_le {stage : List ExecResult} {L : Nat}
    (h : ∀ r ∈ stage, r.latencyMs ≤ L) : stageMaxLatency stage ≤ L := by
  unfold stageMaxLatency
  refine foldl_max_le (Nat.zero_le L) ?_
  intro x hx
  rcases List.mem_map.mp hx with ⟨r, hr, rfl⟩
  exact h r hr

theorem count_stage_split {remaining : List String} {p : String → Bool} (id : String) :
    (remaining.filter p).count id
      + (remaining.filter (fun x => !((remaining.filter p).contains x))).count id
      = remaining.count id := by
  by_cases hc : (remaining.filter p).contains id
  · have hidp : p id = true := (List.mem_filter.mp (List.elem_iff.mp hc)).2
    have h1 : (remaining.filter p).count id = remaining.count id := List.count_filter hidp
    have h2 : (remaining.filter (fun x => !((remaining.filter p).contains x))).count id = 0 := by
      rw [List.count_eq_zero]
      intro hm
      have := (List.mem_filter.mp hm).2
      rw [hc] at this
      exact Bool.noConfusion this
    rw [h1, h2]
    omega
  · have hc2 : (remaining.filter p).contains id = false := by
      rcases hb : (remaining.filter p).contains id with _ | _
      · rfl
      · exact absurd hb hc
    have h1 : (remaining.filter p).count id = 0 := by
      rw [List.count_eq_zero]
      intro hm
      exact hc (List.elem_iff.mpr hm)
    have h2 : (remaining.filter (fun x => !((remaining.filter p).contains x))).count id
        = remaining.count id := by
      refine List.count_filter ?_
      rw [hc2]
      rfl
    rw [h1, h2]
    omega

/-! ## Master lemma for the acyclic success path -/

/-- The claim-level staging property: every stage launches only tasks whose
declared dependencies completed in strictly earlier stages. -/
def stagesRespectDeps (tasks : List STask) : List String → List (List ExecResult) → Prop
  | _, [] => True
  | completed, st :: rest =>
      (∀ r ∈ st, ∀ d ∈ depsOfId tasks r.id, d ∈ completed) ∧
      stagesRespectDeps tasks (completed ++ st.map (fun r => r.id)) rest

theorem exists_min_rank (l : List String) (f : String → Nat) (h : l ≠ []) :
    ∃ a ∈ l, ∀ b ∈ l, f a ≤ f b := by
  induction l with
  | nil => exact absurd rfl h
  | cons x xs ih =>
    by_cases hx : xs = []
    · subst hx
      refine ⟨x, List.mem_cons_self x [], ?_⟩
      intro b hb
      rcases List.mem_cons.mp hb with rfl | hb
      · exact Nat.le_refl _
      · cases hb
    · rcases ih hx with ⟨a, ha, hmin⟩
      by_cases hfa : f x ≤ f a
      · refine ⟨x, List.mem_cons_self x xs, ?_⟩
        intro b hb
        rcases List.mem_cons.mp hb with rfl | hb
        · exact Nat.le_refl _
        · exact Nat.le_trans hfa (hmin b hb)
      · refine ⟨a, List.mem_cons_of_mem x ha, ?_⟩
        intro b hb
        rcases List.mem_cons.mp hb with rfl | hb
        · exact Nat.le_of_lt (Nat.lt_of_not_le hfa)
        · exact hmin b hb

theorem length_filter_lt {α : Type} {l : List α} {q : α → Bool} {x : α}
    (hx : x ∈ l) (hqx : q x = false) : (l.filter q).length < l.length := by
  rw [List.length_filter_lt_length_iff_exists]
  exact ⟨x, hx, by rw [hqx]; exact Bool.noConfusion⟩

/-- Unfolding of one productive iteration of the scheduling loop. -/
theorem runLoopAux_cons_eq (invoke : Invoke) (tasks : List STask) (fuel : Nat)
    (id0 : String) (rest : List String) (results : List (String × String))
    (stages : List (List ExecResult)) (tl cs el : Nat) :
    runLoopAux invoke tasks (fuel + 1) (id0 :: rest) results stages tl cs el
      = (if ((id0 :: rest).filter (fun id => ready tasks results id)).isEmpty then
          .failed cycleMessage stages el
        else
          match firstFailure (runStage invoke tasks results
              ((id0 :: rest).filter (fun id => ready tasks results id))) with
          | some (msg, lat) => .failed msg stages (el + lat)
          | none =>
            runLoopAux invoke tasks fuel
              ((id0 :: rest).filter (fun id =>
                !(((id0 :: rest).filter (fun id => ready tasks results id)).contains id)))
              (results ++ (stageResultsOf invoke tasks results
                ((id0 :: rest).filter (fun id => ready tasks results id))).map
                  (fun r => (r.id, r.result)))
              (stages ++ [stageResultsOf invoke tasks results
                ((id0 :: rest).filter (fun id => ready tasks results id))])
              (tl + ((stageResultsOf invoke tasks results
                ((id0 :: rest).filter (fun id => ready tasks results id))).map
                  (fun r => r.latencyMs)).sum)
              (cs + ((stageResultsOf invoke tasks results
                ((id0 :: rest).filter (fun id => ready tasks results id))).map
                  (fun r => r.steps)).foldl max 0)
              (el + stageMaxLatency (stageResultsOf invoke tasks results
                ((id0 :: rest).filter (fun id => ready tasks results id))))) := rfl

theorem contains_eq_false_iff {l : List String} {a : String} :
    l.contains a = false ↔ a ∉ l := by
  rw [← Bool.not_eq_true]
  exact not_congr List.elem_iff

theorem runLoopAux_acyclic_done
    (invoke : Invoke) (tasks : List STask) (L : Nat) (rank : String → Nat)
    (hok : ∀ t ctx, isOkB (invoke t ctx) = true)
    (hlat : ∀ t ctx, invokeLatency (invoke t ctx) ≤ L)
    (hres : ∀ t ∈ tasks, ∀ d ∈ t.dependsOn.getD [], d ∈ tasks.map (fun u => u.id))
    (hrank : ∀ t ∈ tasks, ∀ d ∈ t.dependsOn.getD [], rank d < rank t.id) :
    ∀ (n : Nat) (remaining : List String) (results : List (String × String))
      (stages : List (List ExecResult)) (tl cs el : Nat),
      remaining.length ≤ n →
      remaining.Nodup →
      (∀ id ∈ remaining, id ∈ tasks.map (fun u => u.id)) →
      (∀ id ∈ remaining, resultsHas results id = false) →
      (∀ d ∈ tasks.map (fun u => u.id), d ∉ remaining → resultsHas results d = true) →
      ∃ (newStages : List (List ExecResult)) (tl2 cs2 dt : Nat),
        runLoopAux invoke tasks n remaining results stages tl cs el
          = .done (stages ++ newStages) (tl + tl2) (cs + cs2) (el + dt) ∧
        dt ≤ remaining.length * L ∧
        (∀ id, (newStages.flatten.map (fun r => r.id)).count id = remaining.count id) ∧
        stagesRespectDeps tasks (results.map (fun kv => kv.1)) newStages := by
  intro n
  induction n with
  | zero =>
    intro remaining results stages tl cs el hn _ _ _ _
    have hnil : remaining = [] := List.eq_nil_of_length_eq_zero (Nat.le_zero.mp hn)
    subst hnil
    refine ⟨[], 0, 0, 0, ?_, by simp, by simp, trivial⟩
    simp [runLoopAux]
  | succ n ih =>
    intro remaining results stages tl cs el hn hnd hmem hdisj hcompl
    cases remaining with
    | nil =>
      refine ⟨[], 0, 0, 0, ?_, by simp, by simp, trivial⟩
      simp [runLoopAux]
    | cons id0 rest =>
      -- the minimal-rank remaining task is ready, so the stage is non-empty
      obtain ⟨m, hmS, hmin⟩ := exists_min_rank (id0 :: rest) rank (by simp)
      have hmready : ready tasks results m = true := by
        rcases Option.isSome_iff_exists.mp (taskMapGet_isSome_of_mem (hmem m hmS)) with ⟨t, ht⟩
        unfold ready
        rw [ht]
        show (match t.dependsOn with
          | none => true
          | some deps => deps.all fun d => resultsHas results d) = true
        cases hdep : t.dependsOn with
        | none => rfl
        | some deps =>
          show (deps.all fun d => resultsHas results d) = true
          rw [List.all_eq_true]
          intro d hd
          obtain ⟨htmem, htid⟩ := taskMapGet_eq_some ht
          have hd2 : d ∈ t.dependsOn.getD [] := by rw [hdep]; exact hd
          have hdrank : rank d < rank m := by
            have := hrank t htmem d hd2
            rwa [htid] at this
          have hdnotrem : d ∉ (id0 :: rest) := fun hdm =>
            absurd (hmin d hdm) (Nat.not_le.mpr hdrank)
          exact hcompl d (hres t htmem d hd2) hdnotrem
      have hmstage : m ∈ (id0 :: rest).filter (fun id => ready tasks results id) :=
        List.mem_filter.mpr ⟨hmS, hmready⟩
      have hstage_ne : (id0 :: rest).filter (fun id => ready tasks results id) ≠ [] := by
        intro h0
        rw [h0] at hmstage
        cases hmstage
      have hempty : ((id0 :: rest).filter (fun id => ready tasks results id)).isEmpty = false := by
        rcases hb : ((id0 :: rest).filter (fun id => ready tasks results id)).isEmpty with _ | _
        · rfl
        · exact absurd (List.isEmpty_iff.mp hb) hstage_ne
      have hff : firstFailure (runStage invoke tasks results
          ((id0 :: rest).filter (fun id => ready tasks results id))) = none :=
        firstFailure_runStage_none _ hok
      have hressome : ∀ id ∈ (id0 :: rest).filter (fun id => ready tasks results id),
          (taskMapGet tasks id).isSome = true := fun id hid =>
        taskMapGet_isSome_of_mem (hmem id (List.mem_filter.mp hid).1)
      have hsrid : (stageResultsOf invoke tasks results
            ((id0 :: rest).filter (fun id => ready tasks results id))).map (fun r => r.id)
          = (id0 :: rest).filter (fun id => ready tasks results id) :=
        stageResultsOf_map_id _ hressome hok
      -- invariants at the next state
      have hmemfilter : ∀ {id : String} {q : String → Bool},
          id ∈ (id0 :: rest).filter q → id ∈ (id0 :: rest) :=
        fun h => (List.mem_filter.mp h).1
      have hlen2 : ((id0 :: rest).filter (fun id =>
          !(((id0 :: rest).filter (fun id => ready tasks results id)).contains id))).length
          < (id0 :: rest).length := by
        refine length_filter_lt hmS ?_
        show (!(((id0 :: rest).filter (fun id => ready tasks results id)).contains m)) = false
        have hcm : ((id0 :: rest).filter (fun id => ready tasks results id)).contains m = true :=
          List.elem_iff.mpr hmstage
        rw [hcm]
        rfl
      have hkeys2 : (results ++ (stageResultsOf invoke tasks results
            ((id0 :: rest).filter (fun id => ready tasks results id))).map
              (fun r => (r.id, r.result))).map (fun kv => kv.1)
          = results.map (fun kv => kv.1)
            ++ (id0 :: rest).filter (fun id => ready tasks results id) := by
        rw [List.map_append, List.map_map]
        have : ((fun kv : String × String => kv.1) ∘ fun r : ExecResult => (r.id, r.result))
            = fun r : ExecResult => r.id := rfl
        rw [this, hsrid]
      have hstagehas : ∀ {id : String},
          resultsHas ((stageResultsOf invoke tasks results
            ((id0 :: rest).filter (fun id => ready tasks results id))).map
              (fun r => (r.id, r.result))) id = true
          ↔ id ∈ (id0 :: rest).filter (fun id => ready tasks results id) := by
        intro id
        rw [resultsHas_iff, List.map_map]
        have : ((fun kv : String × String => kv.1) ∘ fun r : ExecResult => (r.id, r.result))
            = fun r : ExecResult => r.id := rfl
        rw [this, hsrid]
      obtain ⟨ns, tl2, cs2, dt, heq, hdt, hcount, hdeps⟩ :=
        ih ((id0 :: rest).filter (fun id =>
              !(((id0 :: rest).filter (fun id => ready tasks results id)).contains id)))
          (results ++ (stageResultsOf invoke tasks results
            ((id0 :: rest).filter (fun id => ready tasks results id))).map
              (fun r => (r.id, r.result)))
          (stages ++ [stageResultsOf invoke tasks results
            ((id0 :: rest).filter (fun id => ready tasks results id))])
          (tl + ((stageResultsOf invoke tasks results
            ((id0 :: rest).filter (fun id => ready tasks results id))).map
              (fun r => r.latencyMs)).sum)
          (cs + ((stageResultsOf invoke tasks results
            ((id0 :: rest).filter (fun id => ready tasks results id))).map
              (fun r => r.steps)).foldl max 0)
          (el + stageMaxLatency (stageResultsOf invoke tasks results
            ((id0 :: rest).filter (fun id => ready tasks results id))))
          (by omega)
          (List.Nodup.filter _ hnd)
          (fun id hid => hmem id (hmemfilter hid))
          (fun id hid => by
            rw [resultsHas_append]
            have h1 : resultsHas results id = false := hdisj id (hmemfilter hid)
            have h2 : resultsHas ((stageResultsOf invoke tasks results
                ((id0 :: rest).filter (fun id => ready tasks results id))).map
                  (fun r => (r.id, r.result))) id = false := by
              rw [← Bool.not_eq_true]
              intro hb
              have hin := hstagehas.mp hb
              have h3 := (List.mem_filter.mp hid).2
              simp only [Bool.not_eq_true'] at h3
              exact (contains_eq_false_iff.mp h3) hin
            rw [h1, h2]
            rfl)
          (fun d hdall hdnot => by
            rw [resultsHas_append]
            by_cases hdr : d ∈ (id0 :: rest)
            · have hdstage : d ∈ (id0 :: rest).filter (fun id => ready tasks results id) := by
                by_cases hq : ((id0 :: rest).filter
                    (fun id => ready tasks results id)).contains d
                · exact List.elem_iff.mp hq
                · exfalso
                  refine hdnot (List.mem_filter.mpr ⟨hdr, ?_⟩)
                  have hb : ((id0 :: rest).filter
                      (fun id => ready tasks results id)).contains d = false := by
                    rw [← Bool.not_eq_true]
                    exact hq
                  show (!(((id0 :: rest).filter (fun id => ready tasks results id)).contains d))
                      = true
                  rw [hb]
                  rfl
              rw [hstagehas.mpr hdstage]
              exact Bool.or_true _
            · rw [hcompl d hdall hdr]
              rfl)
      refine ⟨stageResultsOf invoke tasks results
          ((id0 :: rest).filter (fun id => ready tasks results id)) :: ns,
        ((stageResultsOf invoke tasks results
          ((id0 :: rest).filter (fun id => ready tasks results id))).map
            (fun r => r.latencyMs)).sum + tl2,
        ((stageResultsOf invoke tasks results
          ((id0 :: rest).filter (fun id => ready tasks results id))).map
            (fun r => r.steps)).foldl max 0 + cs2,
        stageMaxLatency (stageResultsOf invoke tasks results
          ((id0 :: rest).filter (fun id => ready tasks results id))) + dt,
        ?_, ?_, ?_, ?_⟩
      · rw [runLoopAux_cons_eq, hempty]
        show (match firstFailure (runStage invoke tasks results
            ((id0 :: rest).filter (fun id => ready tasks results id))) with
          | some (msg, lat) => LoopOutcome.failed msg stages (el + lat)
          | none => runLoopAux invoke tasks n _ _ _ _ _ _) = _
        rw [hff]
        show runLoopAux invoke tasks n _ _ _ _ _ _ = _
        rw [heq]
        simp only [List.append_assoc, List.singleton_append, Nat.add_assoc]
      · have hmax : stageMaxLatency (stageResultsOf invoke tasks results
            ((id0 :: rest).filter (fun id => ready tasks results id))) ≤ L :=
          stageMaxLatency_le (stageResultsOf_latency_le hlat)
        have hlen3 : ((id0 :: rest).filter (fun id =>
            !(((id0 :: rest).filter (fun id => ready tasks results id)).contains id))).length + 1
            ≤ (id0 :: rest).length := hlen2
        calc stageMaxLatency _ + dt
            ≤ L + ((id0 :: rest).filter (fun id =>
                !(((id0 :: rest).filter (fun id => ready tasks results id)).contains id))).length
                * L := Nat.add_le_add hmax hdt
          _ = (((id0 :: rest).filter (fun id =>
                !(((id0 :: rest).filter (fun id => ready tasks results id)).contains id))).length
                + 1) * L := by ring
          _ ≤ (id0 :: rest).length * L := Nat.mul_le_mul_right L hlen3
      · intro id
        rw [List.flatten_cons, List.map_append, List.count_append, hsrid, hcount]
        exact count_stage_split id
      · refine ⟨?_, ?_⟩
        · intro r hr d hd
          have hridstage : r.id ∈ (id0 :: rest).filter (fun id => ready tasks results id) := by
            rw [← hsrid]
            exact List.mem_map.mpr ⟨r, hr, rfl⟩
          have hready := (List.mem_filter.mp hridstage).2
          have := ready_deps hready d hd
          exact resultsHas_iff.mp this
        · have : stagesRespectDeps tasks
              (results.map (fun kv => kv.1)
                ++ (stageResultsOf invoke tasks results
                  ((id0 :: rest).filter (fun id => ready tasks results id))).map
                    (fun r => r.id)) ns := by
            rw [hsrid, ← hkeys2]
            exact hdeps
          exact this

/-! ## C1: acyclic graphs execute every task exactly once, in dependency order -/

def c1FailTask : STask := { id := "t1", agentId := "a1", taskDescription := "d1" }

def c1FailInvoke : Invoke := fun _ _ => .err "worker exploded" 0

/-- C1 counterexample: a one-task graph whose single worker invocation
settles (by rejecting) immediately, well before the deadline.  The claim then
demands that the run complete with t1 appearing in exactly one stage, but the
code returns the catch-branch failure object and no stage results at all. -/
theorem c1_counterexample :
    execute [c1FailTask] c1FailInvoke = .failure "worker exploded" 1 0 := by decide

/-- C1 as amended: for every task list whose dependency references all
resolve, with no dependency cycle (witnessed by a rank function), whose
worker invocations all resolve successfully, and whose total latency budget
keeps the whole run under the deadline, execute returns the success result;
every task id appears exactly once across the executed stages, and no task is
launched before all of its dependencies completed in strictly earlier
stages. -/
theorem c1_acyclic_success_run (tasks : List STask) (invoke : Invoke) (L : Nat)
    (rank : String → Nat)
    (hok : ∀ t ctx, isOkB (invoke t ctx) = true)
    (hlat : ∀ t ctx, invokeLatency (invoke t ctx) ≤ L)
    (hres : ∀ t ∈ tasks, ∀ d ∈ t.dependsOn.getD [], d ∈ tasks.map (fun u => u.id))
    (hrank : ∀ t ∈ tasks, ∀ d ∈ t.dependsOn.getD [], rank d < rank t.id)
    (hL : tasks.length * L < DECISION_DEADLINE_MS) :
    ∃ (stages : List (List ExecResult)) (metrics : ParallelizationMetrics),
      execute tasks invoke = .success stages.flatten metrics ∧
      (∀ id ∈ tasks.map (fun t => t.id),
        (stages.flatten.map (fun r => r.id)).count id = 1) ∧
      stagesRespectDeps tasks [] stages := by
  obtain ⟨ns, tl2, cs2, dt, heq, hdt, hcount, hdeps⟩ :=
    runLoopAux_acyclic_done invoke tasks L rank hok hlat hres hrank
      (insertionDedup (tasks.map (fun t => t.id))).length
      (insertionDedup (tasks.map (fun t => t.id))) [] [] 0 orchestrationOverhead 0
      (Nat.le_refl _) (nodup_insertionDedup _)
      (fun id hid => mem_insertionDedup.mp hid)
      (fun _ _ => rfl)
      (fun d hd hnd => absurd (mem_insertionDedup.mpr hd) hnd)
  have hdt2 : dt ≤ tasks.length * L := by
    refine le_trans hdt (Nat.mul_le_mul_right L ?_)
    refine le_trans (length_insertionDedup_le _) ?_
    rw [List.length_map]
  have ht : 0 + dt ≤ DECISION_DEADLINE_MS := by
    have := lt_of_le_of_lt hdt2 hL
    omega
  refine ⟨ns,
    { totalSubagents := tasks.length
      wallClockTimeMs := 0 + dt
      criticalSteps := orchestrationOverhead + cs2
      latencyReductionVsSequential := ((0 + tl2 : Nat) : ℚ) / ((0 + dt : Nat) : ℚ)
      serialCollapseDetected := decide (tasks.length < 3)
      bottleneckAgent := (slowestTask (([] ++ ns).flatten)).map (fun r => r.agentId)
      bottleneckDurationMs := (slowestTask (([] ++ ns).flatten)).map (fun r => r.latencyMs)
      parallelismEfficiency := (tasks.length : ℚ) / (((0 + dt : Nat) : ℚ) / 1000) },
    ?_, ?_, ?_⟩
  · unfold execute runLoopTop
    rw [heq]
    show (if 0 + dt ≤ DECISION_DEADLINE_MS then _ else _) = _
    rw [if_pos ht]
    rfl
  · intro id hid
    rw [hcount id]
    exact List.count_eq_one_of_mem (nodup_insertionDedup _) (mem_insertionDedup.mpr hid)
  · exact hdeps

theorem c1_acyclic_success_run_witness :
    ∃ (stages : List (List ExecResult)) (metrics : ParallelizationMetrics),
      execute [c1FailTask] (fun _ _ => .ok "s" "r" 1 1) = .success stages.flatten metrics ∧
      (∀ id ∈ [c1FailTask].map (fun t => t.id),
        (stages.flatten.map (fun r => r.id)).count id = 1) ∧
      stagesRespectDeps [c1FailTask] [] stages :=
  c1_acyclic_success_run [c1FailTask] (fun _ _ => .ok "s" "r" 1 1) 1 (fun _ => 0)
    (fun _ _ => rfl) (fun _ _ => Nat.le_refl 1) (by decide) (by decide) (by decide)

/-! ## Master lemma for permanently blocked task sets -/

theorem runLoopAux_blocked
    (invoke : Invoke) (tasks : List STask) (L : Nat) (S : List String)
    (hok : ∀ t ctx, isOkB (invoke t ctx) = true)
    (hlat : ∀ t ctx, invokeLatency (invoke t ctx) ≤ L)
    (hSne : S ≠ [])
    (hSblock : ∀ id ∈ S, ∃ d ∈ depsOfId tasks id, d ∈ S ∨ d ∉ tasks.map (fun u => u.id)) :
    ∀ (n : Nat) (remaining : List String) (results : List (String × String))
      (stages : List (List ExecResult)) (tl cs el : Nat),
      remaining.length ≤ n →
      (∀ id ∈ S, id ∈ remaining) →
      (∀ id ∈ remaining, id ∈ tasks.map (fun u => u.id)) →
      (∀ id ∈ remaining, resultsHas results id = false) →
      (∀ k, resultsHas results k = true → k ∈ tasks.map (fun u => u.id)) →
      ∃ (stages2 : List (List ExecResult)) (dt : Nat),
        runLoopAux invoke tasks n remaining results stages tl cs el
          = .failed cycleMessage (stages ++ stages2) (el + dt) ∧
        dt ≤ remaining.length * L := by
  intro n
  induction n with
  | zero =>
    intro remaining results stages tl cs el hn hS _ _ _
    exfalso
    rcases List.exists_mem_of_ne_nil S hSne with ⟨s0, hs0⟩
    have : remaining = [] := List.eq_nil_of_length_eq_zero (Nat.le_zero.mp hn)
    rw [this] at hS
    cases hS s0 hs0
  | succ n ih =>
    intro remaining results stages tl cs el hn hS hmem hdisj hkeys
    cases remaining with
    | nil =>
      exfalso
      rcases List.exists_mem_of_ne_nil S hSne with ⟨s0, hs0⟩
      cases hS s0 hs0
    | cons id0 rest =>
      -- no task of S is ever ready at this state
      have hSnotready : ∀ id ∈ S, ready tasks results id = false := by
        intro id hid
        rcases Option.isSome_iff_exists.mp
          (taskMapGet_isSome_of_mem (hmem id (hS id hid))) with ⟨t, ht⟩
        rcases hSblock id hid with ⟨d, hd, hdcase⟩
        have hdres : resultsHas results d = false := by
          rcases hdcase with hdS | hdout
          · exact hdisj d (hS d hdS)
          · rw [← Bool.not_eq_true]
            intro hr
            exact hdout (hkeys d hr)
        unfold ready
        rw [ht]
        unfold depsOfId at hd
        simp only [ht] at hd
        show (match t.dependsOn with
          | none => true
          | some deps => deps.all fun d => resultsHas results d) = false
        cases hdep : t.dependsOn with
        | none =>
          rw [hdep] at hd
          simp [Option.getD] at hd
        | some deps =>
          rw [hdep] at hd
          simp only [Option.getD] at hd
          show (deps.all fun d => resultsHas results d) = false
          rw [← Bool.not_eq_true]
          intro hall
          have := List.all_eq_true.mp hall d hd
          rw [hdres] at this
          exact Bool.noConfusion this
      have hSnotstage : ∀ id ∈ S,
          id ∉ (id0 :: rest).filter (fun id => ready tasks results id) := by
        intro id hid hmem2
        have := (List.mem_filter.mp hmem2).2
        rw [hSnotready id hid] at this
        exact Bool.noConfusion this
      by_cases hstage : ((id0 :: rest).filter (fun id => ready tasks results id)).isEmpty = true
      · refine ⟨[], 0, ?_, Nat.zero_le _⟩
        rw [runLoopAux_cons_eq, if_pos hstage]
        rw [List.append_nil, Nat.add_zero]
      · have hempty : ((id0 :: rest).filter (fun id => ready tasks results id)).isEmpty
            = false := by
          rw [← Bool.not_eq_true]
          exact hstage
        have hstage_ne : (id0 :: rest).filter (fun id => ready tasks results id) ≠ [] := by
          intro h0
          rw [h0] at hempty
          exact Bool.noConfusion hempty
        rcases List.exists_mem_of_ne_nil _ hstage_ne with ⟨m, hmstage⟩
        have hff : firstFailure (runStage invoke tasks results
            ((id0 :: rest).filter (fun id => ready tasks results id))) = none :=
          firstFailure_runStage_none _ hok
        have hressome : ∀ id ∈ (id0 :: rest).filter (fun id => ready tasks results id),
            (taskMapGet tasks id).isSome = true := fun id hid =>
          taskMapGet_isSome_of_mem (hmem id (List.mem_filter.mp hid).1)
        have hsrid : (stageResultsOf invoke tasks results
              ((id0 :: rest).filter (fun id => ready tasks results id))).map (fun r => r.id)
            = (id0 :: rest).filter (fun id => ready tasks results id) :=
          stageResultsOf_map_id _ hressome hok
        have hstagehas : ∀ {id : String},
            resultsHas ((stageResultsOf invoke tasks results
              ((id0 :: rest).filter (fun id => ready tasks results id))).map
                (fun r => (r.id, r.result))) id = true
            ↔ id ∈ (id0 :: rest).filter (fun id => ready tasks results id) := by
          intro id
          rw [resultsHas_iff, List.map_map]
          have : ((fun kv : String × String => kv.1) ∘ fun r : ExecResult => (r.id, r.result))
              = fun r : ExecResult => r.id := rfl
          rw [this, hsrid]
        have hlen2 : ((id0 :: rest).filter (fun id =>
            !(((id0 :: rest).filter (fun id => ready tasks results id)).contains id))).length
            < (id0 :: rest).length := by
          refine length_filter_lt ((List.mem_filter.mp hmstage).1) ?_
          show (!(((id0 :: rest).filter (fun id => ready tasks results id)).contains m)) = false
          have hcm : ((id0 :: rest).filter (fun id => ready tasks results id)).contains m
              = true := List.elem_iff.mpr hmstage
          rw [hcm]
          rfl
        obtain ⟨stages2, dt, heq, hdt⟩ :=
          ih ((id0 :: rest).filter (fun id =>
                !(((id0 :: rest).filter (fun id => ready tasks results id)).contains id)))
            (results ++ (stageResultsOf invoke tasks results
              ((id0 :: rest).filter (fun id => ready tasks results id))).map
                (fun r => (r.id, r.result)))
            (stages ++ [stageResultsOf invoke tasks results
              ((id0 :: rest).filter (fun id => ready tasks results id))])
            (tl + ((stageResultsOf invoke tasks results
              ((id0 :: rest).filter (fun id => ready tasks results id))).map
                (fun r => r.latencyMs)).sum)
            (cs + ((stageResultsOf invoke tasks results
              ((id0 :: rest).filter (fun id => ready tasks results id))).map
                (fun r => r.steps)).foldl max 0)
            (el + stageMaxLatency (stageResultsOf invoke tasks results
              ((id0 :: rest).filter (fun id => ready tasks results id))))
            (by omega)
            (fun id hid => by
              refine List.mem_filter.mpr ⟨hS id hid, ?_⟩
              show (!(((id0 :: rest).filter
                  (fun id => ready tasks results id)).contains id)) = true
              have hb : ((id0 :: rest).filter
                  (fun id => ready tasks results id)).contains id = false :=
                contains_eq_false_iff.mpr (hSnotstage id hid)
              rw [hb]
              rfl)
            (fun id hid => hmem id (List.mem_filter.mp hid).1)
            (fun id hid => by
              rw [resultsHas_append]
              have h1 : resultsHas results id = false :=
                hdisj id (List.mem_filter.mp hid).1
              have h2 : resultsHas ((stageResultsOf invoke tasks results
                  ((id0 :: rest).filter (fun id => ready tasks results id))).map
                    (fun r => (r.id, r.result))) id = false := by
                rw [← Bool.not_eq_true]
                intro hb
                have hin := hstagehas.mp hb
                have h3 := (List.mem_filter.mp hid).2
                simp only [Bool.not_eq_true'] at h3
                exact (contains_eq_false_iff.mp h3) hin
              rw [h1, h2]
              rfl)
            (fun k hk => by
              rw [resultsHas_append] at hk
              rcases Bool.or_eq_true_iff.mp hk with hk | hk
              · exact hkeys k hk
              · have hin := hstagehas.mp hk
                exact hmem k (List.mem_filter.mp hin).1)
        refine ⟨stageResultsOf invoke tasks results
            ((id0 :: rest).filter (fun id => ready tasks results id)) :: stages2,
          stageMaxLatency (stageResultsOf invoke tasks results
            ((id0 :: rest).filter (fun id => ready tasks results id))) + dt, ?_, ?_⟩
        · rw [runLoopAux_cons_eq, hempty]
          show (match firstFailure (runStage invoke tasks results
              ((id0 :: rest).filter (fun id => ready tasks results id))) with
            | some (msg, lat) => LoopOutcome.failed msg stages (el + lat)
            | none => runLoopAux invoke tasks n _ _ _ _ _ _) = _
          rw [hff]
          show runLoopAux invoke tasks n _ _ _ _ _ _ = _
          rw [heq]
          simp only [List.append_assoc, List.singleton_append, Nat.add_assoc]
        · have hmax : stageMaxLatency (stageResultsOf invoke tasks results
              ((id0 :: rest).filter (fun id => ready tasks results id))) ≤ L :=
            stageMaxLatency_le (stageResultsOf_latency_le hlat)
          have hlen3 : ((id0 :: rest).filter (fun id =>
              !(((id0 :: rest).filter (fun id => ready tasks results id)).contains id))).length
              + 1 ≤ (id0 :: rest).length := hlen2
          calc stageMaxLatency _ + dt
              ≤ L + ((id0 :: rest).filter (fun id =>
                  !(((id0 :: rest).filter
                    (fun id => ready tasks results id)).contains id))).length * L :=
                Nat.add_le_add hmax hdt
            _ = (((id0 :: rest).filter (fun id =>
                  !(((id0 :: rest).filter
                    (fun id => ready tasks results id)).contains id))).length + 1) * L := by
                ring
            _ ≤ (id0 :: rest).length * L := Nat.mul_le_mul_right L hlen3

/-! ## C5: cycles abort the run with the circular-dependency error -/

def twoCycleTasks : List STask :=
  [{ id := "A", agentId := "a", taskDescription := "da", dependsOn := some ["B"] },
   { id := "B", agentId := "b", taskDescription := "db", dependsOn := some ["A"] }]

def selfCycleTask : STask :=
  { id := "s", agentId := "a", taskDescription := "d", dependsOn := some ["s"] }

/-- C5 as amended: any graph with a set of resolvable tasks that mutually
depend on each other (each member of S has a dependency inside S) fails with
the circular-dependency error, provided the worker invocations that do run
resolve successfully and the run stays under the deadline; and the concrete
two-task cycle fails at the very first iteration with zero executed stages
and zero elapsed time, for every worker function (so no worker invocation can
influence the outcome). -/
theorem c5_cycle_detection :
    (∀ (tasks : List STask) (invoke : Invoke) (L : Nat) (S : List String),
      (∀ t ctx, isOkB (invoke t ctx) = true) →
      (∀ t ctx, invokeLatency (invoke t ctx) ≤ L) →
      S ≠ [] →
      (∀ id ∈ S, id ∈ tasks.map (fun u => u.id)) →
      (∀ id ∈ S, ∃ d ∈ depsOfId tasks id, d ∈ S) →
      tasks.length * L < DECISION_DEADLINE_MS →
      ∃ t ≤ tasks.length * L,
        execute tasks invoke = .failure cycleMessage tasks.length t) ∧
    (∀ invoke : Invoke,
      runLoopTop twoCycleTasks invoke = .failed cycleMessage [] 0 ∧
      execute twoCycleTasks invoke = .failure cycleMessage 2 0) := by
  constructor
  · intro tasks invoke L S hok hlat hSne hSmem hScycle hL
    obtain ⟨stages2, dt, heq, hdt⟩ :=
      runLoopAux_blocked invoke tasks L S hok hlat hSne
        (fun id hid => by
          rcases hScycle id hid with ⟨d, hd, hdS⟩
          exact ⟨d, hd, Or.inl hdS⟩)
        (insertionDedup (tasks.map (fun t => t.id))).length
        (insertionDedup (tasks.map (fun t => t.id))) [] [] 0 orchestrationOverhead 0
        (Nat.le_refl _)
        (fun id hid => mem_insertionDedup.mpr (hSmem id hid))
        (fun id hid => mem_insertionDedup.mp hid)
        (fun _ _ => rfl)
        (fun k hk => Bool.noConfusion hk)
    have hdt2 : dt ≤ tasks.length * L := by
      refine le_trans hdt (Nat.mul_le_mul_right L ?_)
      refine le_trans (length_insertionDedup_le _) ?_
      rw [List.length_map]
    refine ⟨0 + dt, by omega, ?_⟩
    unfold execute runLoopTop
    rw [heq]
    show (if 0 + dt ≤ DECISION_DEADLINE_MS then
        ExecOutput.failure cycleMessage tasks.length (0 + dt)
      else ExecOutput.failure deadlineMessage tasks.length DECISION_DEADLINE_MS) = _
    rw [if_pos (by omega)]
  · intro invoke
    exact ⟨rfl, rfl⟩

theorem c5_cycle_detection_witness :
    ∃ t ≤ [selfCycleTask].length * 1,
      execute [selfCycleTask] (fun _ _ => .ok "s" "r" 1 1)
        = .failure cycleMessage 1 t :=
  c5_cycle_detection.1 [selfCycleTask] (fun _ _ => .ok "s" "r" 1 1) 1 ["s"]
    (fun _ _ => rfl) (fun _ _ => Nat.le_refl 1) (by decide) (by decide)
    (by decide) (by decide)

/-! ## C6: unresolved dependency references -/

def c6Tasks : List STask :=
  [{ id := "t1", agentId := "a1", taskDescription := "d1" },
   { id := "t2", agentId := "a2", taskDescription := "d2", dependsOn := some ["missing"] }]

def c6Invoke : Invoke := fun t _ => .ok "strat" ("done:" ++ t.id) 1 1

/-- C6 counterexample: with one independent task and one task whose
dependsOn names a nonexistent id, the scheduler performs a worker invocation
(t1 runs in a first stage, visible in the partial stage list and the elapsed
time) and then fails with the same circular-dependency error message — not a
distinct structural error detected before any stage runs. -/
theorem c6_counterexample :
    runLoopTop c6Tasks c6Invoke
      = .failed cycleMessage
          [[{ id := "t1", agentId := "a1", strategy := "strat", result := "done:t1",
              latencyMs := 1, steps := 1 }]] 1 ∧
    execute c6Tasks c6Invoke = .failure cycleMessage 2 1 := by
  exact ⟨by decide, by decide⟩

/-- C6 as amended: a dangling dependsOn reference is not validated up front;
any graph with a set of tasks blocked on ids that name no submitted task
fails with the same circular-dependency error raised when no remaining task
is ready, after the unblocked part of the graph has already executed
(provided those workers succeed and the run stays under the deadline). -/
theorem c6_unresolved_reference_behaves_as_cycle
    (tasks : List STask) (invoke : Invoke) (L : Nat) (S : List String)
    (hok : ∀ t ctx, isOkB (invoke t ctx) = true)
    (hlat : ∀ t ctx, invokeLatency (invoke t ctx) ≤ L)
    (hSne : S ≠ [])
    (hSmem : ∀ id ∈ S, id ∈ tasks.map (fun u => u.id))
    (hSdangling : ∀ id ∈ S, ∃ d ∈ depsOfId tasks id, d ∉ tasks.map (fun u => u.id))
    (hL : tasks.length * L < DECISION_DEADLINE_MS) :
    ∃ t ≤ tasks.length * L,
      execute tasks invoke = .failure cycleMessage tasks.length t := by
  obtain ⟨stages2, dt, heq, hdt⟩ :=
    runLoopAux_blocked invoke tasks L S hok hlat hSne
      (fun id hid => by
        rcases hSdangling id hid with ⟨d, hd, hdout⟩
        exact ⟨d, hd, Or.inr hdout⟩)
      (insertionDedup (tasks.map (fun t => t.id))).length
      (insertionDedup (tasks.map (fun t => t.id))) [] [] 0 orchestrationOverhead 0
      (Nat.le_refl _)
      (fun id hid => mem_insertionDedup.mpr (hSmem id hid))
      (fun id hid => mem_insertionDedup.mp hid)
      (fun _ _ => rfl)
      (fun k hk => Bool.noConfusion hk)
  have hdt2 : dt ≤ tasks.length * L := by
    refine le_trans hdt (Nat.mul_le_mul_right L ?_)
    refine le_trans (length_insertionDedup_le _) ?_
    rw [List.length_map]
  refine ⟨0 + dt, by omega, ?_⟩
  unfold execute runLoopTop
  rw [heq]
  show (if 0 + dt ≤ DECISION_DEADLINE_MS then
      ExecOutput.failure cycleMessage tasks.length (0 + dt)
    else ExecOutput.failure deadlineMessage tasks.length DECISION_DEADLINE_MS) = _
  rw [if_pos (by omega)]

theorem c6_unresolved_reference_behaves_as_cycle_witness :
    ∃ t ≤ c6Tasks.length * 1,
      execute c6Tasks c6Invoke = .failure cycleMessage 2 t :=
  c6_unresolved_reference_behaves_as_cycle c6Tasks c6Invoke 1 ["t2"]
    (fun _ _ => rfl) (fun _ _ => Nat.le_refl 1) (by decide) (by decide)
    (by decide) (by decide)

/-! ## C3: a worker failure aborts the whole run -/

def c3Tasks : List STask :=
  [{ id := "x", agentId := "ax", taskDescription := "dx" },
   { id := "y", agentId := "ay", taskDescription := "dy" }]

def c3Invoke : Invoke := fun t _ =>
  if t.id = "x" then .ok "s" "rx" 5 1 else .err "boom" 3

/-- C3 counterexample: two independent tasks run in the same stage; one
succeeds after 5 ms, the other rejects after 3 ms.  The claim demands that
the failure be isolated into that task's own result while the run and its
sibling proceed, but the code rejects the whole stage and returns the global
catch-branch failure object: no per-task results survive, the sibling's
result is discarded, and the run is over. -/
theorem c3_counterexample :
    execute c3Tasks c3Invoke = .failure "boom" 2 3 := by decide

/-- A two-task chain whose second-stage worker rejects: x succeeds in stage
one, y (which depends on x) rejects in stage two. -/
def c3ChainTasks : List STask :=
  [{ id := "x", agentId := "ax", taskDescription := "dx" },
   { id := "y", agentId := "ay", taskDescription := "dy", dependsOn := some ["x"] }]

def c3ChainInvoke : Invoke := fun t _ =>
  if t.id = "x" then .ok "s" "rx" 5 1 else .err "late boom" 3

/-- The stage-one result of the chain scenario, used to name its stage-two
loop state. -/
def c3ChainStageOne : ExecResult :=
  { id := "x", agentId := "ax", strategy := "s", result := "rx",
    latencyMs := 5, steps := 1 }

/-- C3 as amended: at whatever state the scheduling loop has reached (any
remaining set, completed map and accumulators, hence any stage of any graph),
if some worker invocation of the stage computed there rejects, the earliest
rejection wins the stage Promise.all and the loop rejects right there: the
outcome is the failed result carrying that message and the rejection time,
with the stage accumulator unchanged — the failing stage records nothing, its
sibling results are discarded, and no further stage runs.  And every loop
rejection that settles before the deadline surfaces through execute as the
catch-branch failure object carrying only that message, the task count and
the rejection time. -/
theorem c3_worker_failure_aborts_run :
    (∀ (tasks : List STask) (invoke : Invoke) (fuel : Nat) (remaining : List String)
        (results : List (String × String)) (stages : List (List ExecResult))
        (tl cs el : Nat) (msg : String) (lat : Nat),
      firstFailure (runStage invoke tasks results
          (remaining.filter (fun id => ready tasks results id))) = some (msg, lat) →
      runLoopAux invoke tasks (fuel + 1) remaining results stages tl cs el
        = LoopOutcome.failed msg stages (el + lat)) ∧
    (∀ (tasks : List STask) (invoke : Invoke) (msg : String)
        (stages : List (List ExecResult)) (t : Nat),
      runLoopTop tasks invoke = LoopOutcome.failed msg stages t →
      t ≤ DECISION_DEADLINE_MS →
      execute tasks invoke = ExecOutput.failure msg tasks.length t) := by
  constructor
  · intro tasks invoke fuel remaining results stages tl cs el msg lat h
    cases remaining with
    | nil =>
      exfalso
      simp [runStage, firstFailure] at h
    | cons id0 rest =>
      rw [runLoopAux_cons_eq]
      have hne : ¬ ((id0 :: rest).filter
          (fun id => ready tasks results id)).isEmpty = true := by
        intro he
        rw [List.isEmpty_iff] at he
        rw [he] at h
        simp [runStage, firstFailure] at h
      rw [if_neg hne, h]
  · intro tasks invoke msg stages t h hle
    unfold execute
    rw [h]
    show (if t ≤ DECISION_DEADLINE_MS then _ else _) = _
    rw [if_pos hle]

theorem c3_worker_failure_aborts_run_witness :
    runLoopAux c3ChainInvoke c3ChainTasks (0 + 1) ["y"] [("x", "rx")]
        [[c3ChainStageOne]] 5 2 5
      = LoopOutcome.failed "late boom" [[c3ChainStageOne]] (5 + 3) ∧
    execute c3ChainTasks c3ChainInvoke = ExecOutput.failure "late boom" 2 8 := by
  constructor
  · exact c3_worker_failure_aborts_run.1 c3ChainTasks c3ChainInvoke 0 ["y"] [("x", "rx")]
      [[c3ChainStageOne]] 5 2 5 "late boom" 3 (by decide)
  · exact c3_worker_failure_aborts_run.2 c3ChainTasks c3ChainInvoke "late boom"
      [[c3ChainStageOne]] 8 (by decide) (by decide)

/-! ## C4: deadline failures carry no partial trace -/

def c4Tasks : List STask :=
  [{ id := "t1", agentId := "a1", taskDescription := "d1" },
   { id := "t2", agentId := "a2", taskDescription := "d2", dependsOn := some ["t1"] }]

def c4InvokeA : Invoke := fun t _ =>
  if t.id = "t1" then .ok "s" "rA" 10000 1 else .ok "s" "r2" 25000 1

def c4InvokeB : Invoke := fun t _ =>
  if t.id = "t1" then .ok "s" "rB" 10000 1 else .ok "s" "r2" 25000 1

/-- C4 counterexample: two chained tasks finish at 35000 ms, past the 30000
ms deadline, so the run fails with the deadline message.  The two worker
functions differ only in the payload t1 computes in the first stage, which
completed at 10000 ms, well before the deadline — yet the two failure results
are identical, so the failure cannot include the partial trace computed up to
the deadline (the loop outcomes themselves do differ). -/
theorem c4_counterexample :
    execute c4Tasks c4InvokeA = .failure deadlineMessage 2 DECISION_DEADLINE_MS ∧
    execute c4Tasks c4InvokeB = execute c4Tasks c4InvokeA ∧
    runLoopTop c4Tasks c4InvokeA ≠ runLoopTop c4Tasks c4InvokeB := by
  refine ⟨by decide, by decide, by decide⟩

/-- C4 as amended: whenever the scheduling loop does not settle by the
deadline, execute returns the deadline failure carrying only the error
message, the total subagent count and the deadline as wall-clock time; the
partial trace is not part of the result. -/
theorem c4_deadline_failure_shape (tasks : List STask) (invoke : Invoke)
    (h : DECISION_DEADLINE_MS < loopSettleTime (runLoopTop tasks invoke)) :
    execute tasks invoke = .failure deadlineMessage tasks.length DECISION_DEADLINE_MS := by
  unfold execute
  cases hr : runLoopTop tasks invoke with
  | done stages tl cs t =>
    rw [hr] at h
    simp only [loopSettleTime] at h
    show (if t ≤ DECISION_DEADLINE_MS then _ else _) = _
    rw [if_neg (by omega)]
  | failed msg st t =>
    rw [hr] at h
    simp only [loopSettleTime] at h
    show (if t ≤ DECISION_DEADLINE_MS then _ else _) = _
    rw [if_neg (by omega)]

theorem c4_deadline_failure_shape_witness :
    execute c4Tasks c4InvokeA = .failure deadlineMessage c4Tasks.length DECISION_DEADLINE_MS :=
  c4_deadline_failure_shape c4Tasks c4InvokeA (by decide)

/-- A graph containing the A-B cycle among resolvable tasks plus an
independent task whose worker rejects immediately. -/
def c5MixedTasks : List STask :=
  [{ id := "A", agentId := "a", taskDescription := "da", dependsOn := some ["B"] },
   { id := "B", agentId := "b", taskDescription := "db", dependsOn := some ["A"] },
   { id := "C", agentId := "c", taskDescription := "dc" }]

def c5MixedInvoke : Invoke := fun _ _ => .err "boom" 0

/-- C5 counterexample: this graph contains a dependency cycle among its
resolvable tasks (A and B), yet the scheduler does not fail with the
circular-dependency error: the independent task C runs first, its rejection
aborts the whole run, and the failure carries the worker message instead. -/
theorem c5_counterexample :
    execute c5MixedTasks c5MixedInvoke = .failure "boom" 3 0 ∧
    "boom" ≠ cycleMessage := by
  exact ⟨by decide, by decide⟩
